import Mathlib

/-!
Verification development for the load-forwarding / symbolic-store component of
the LLPE whole-program specializer (lib/Analysis/Integrator/LoadForward.cpp).

The development shallowly embeds the C++ data structures and algorithms as
executable Lean definitions and proves properties of the embedding.  Machine
integers (uint64_t, int64_t) are modelled as Nat / Int; where the C++
arithmetic can wrap and the wrap is observable, the wrapping casts are
modelled explicitly (the int64/uint64 sums of the alias disjointness tests),
and no-overflow theorems carry in-range hypotheses.  DenseMap containers
are modelled as association lists, raw buffers as lists of byte values, and
reference-counted pointer graphs as explicit id-indexed state records.
-/

namespace LF

/-! ## Constants and raw-byte access

Model of the llvm::Constant shapes that LoadForward manipulates:
integer constants carry their store-size list of bytes (index 0 = byte at
offset 0, i.e. the byte written first in memory); `cUndef n` models an
UndefValue whose store size is `n`; `cArr esize elems` models a ConstantArray
whose element alloc size is `esize`; `cStruct size fields` models a
ConstantStruct together with its StructLayout: `fields` lists (byte offset,
member constant) in increasing offset order and `size` is the struct's store
size (including any trailing padding); `cOpaque n` models a constant that
llvm::ReadDataFromGlobal cannot decompose into bytes (e.g. a ConstantExpr). -/

inductive LConst where
  | cInt (bytes : List Nat)
  | cUndef (n : Nat)
  | cArr (esize : Nat) (elems : List LConst)
  | cStruct (size : Nat) (fields : List (Nat × LConst))
  | cOpaque (n : Nat)
deriving Repr

/-- GlobalAA->getTypeStoreSize of the constant's type. -/
def storeSize : LConst → Nat
  | .cInt bs => bs.length
  | .cUndef n => n
  | .cArr es el => es * el.length
  | .cStruct n _ => n
  | .cOpaque n => n

/-- Pad (or truncate) a byte list to exactly `n` bytes, filling with zeros. -/
def padTo (n : Nat) (l : List Nat) : List Nat :=
  (l ++ List.replicate n 0).take n

/-- Overwrite `buf` starting at offset `off` with the bytes `bs`
(bytes falling outside `buf` are dropped, as writes into a fixed buffer). -/
def writeAt (buf : List Nat) (off : Nat) (bs : List Nat) : List Nat :=
  (List.range buf.length).map
    (fun j => if off ≤ j ∧ j < off + bs.length then bs.getD (j - off) 0 else buf.getD j 0)

/-- The full store-sized byte image of a constant.  Padding bytes and undef
bytes read as zero, exactly as llvm::ReadDataFromGlobal leaves them in its
caller's zero-initialised buffer. -/
def bytesOf : LConst → List Nat
  | .cInt bs => bs
  | .cUndef n => List.replicate n 0
  | .cOpaque n => List.replicate n 0
  | .cArr es el => (el.attach.map (fun e => padTo es (bytesOf e.1))).flatten
  | .cStruct n fs =>
    fs.attach.foldl (fun acc f => writeAt acc f.1.1 (bytesOf f.1.2)) (List.replicate n 0)
decreasing_by
  · have := List.sizeOf_lt_of_mem e.2
    simp only [LConst.cArr.sizeOf_spec]
    omega
  · have h := List.sizeOf_lt_of_mem f.2
    have h2 : sizeOf (f.1).2 < sizeOf f.1 := by
      obtain ⟨⟨a, b⟩, hf⟩ := f
      simp only
      simp
    simp only [LConst.cStruct.sizeOf_spec]
    omega

/-- Whether llvm::ReadDataFromGlobal can read this constant's bytes. -/
def readableC : LConst → Bool
  | .cInt _ => true
  | .cUndef _ => true
  | .cOpaque _ => false
  | .cArr _ el => el.attach.all (fun e => readableC e.1)
  | .cStruct _ fs => fs.attach.all (fun f => readableC f.1.2)
decreasing_by
  · have := List.sizeOf_lt_of_mem e.2
    simp only [LConst.cArr.sizeOf_spec]
    omega
  · have h := List.sizeOf_lt_of_mem f.2
    have h2 : sizeOf (f.1).2 < sizeOf f.1 := by
      obtain ⟨⟨a, b⟩, hf⟩ := f
      simp only
      simp
    simp only [LConst.cStruct.sizeOf_spec]
    omega

/-- Model of llvm::ReadDataFromGlobal(C, off, buf, n): on success the `n`
destination bytes are the constant's bytes starting at `off`, zero-extended
past the end of the constant (ReadDataFromGlobal leaves unwritten tail bytes
of its zeroed destination buffer untouched and still returns true). -/
def rdfg (c : LConst) (off n : Nat) : Option (List Nat) :=
  if readableC c then
    some ((List.range n).map (fun i => (bytesOf c).getD (off + i) 0))
  else
    none

/-- Direct byte extraction of `[off, off+n)` from a constant's byte image. -/
def readBytes (c : LConst) (off n : Nat) : List Nat :=
  (List.range n).map (fun i => (bytesOf c).getD (off + i) 0)

/-! ## PartialVal: the byte-exact partial-value assembler

Embeds the PartialVal class of LoadForward.cpp.  The discriminator mirrors
the C++ `PVType` enum; `pvPartialC` is the source's PVPartial (a reference
into a constant at a read offset).  The PVTotal payload (an ImprovedVal) is
modelled by `TotalSrc`: either a constant or some non-constant program value
(instruction result / argument), which is all combineWith inspects about it.
A null C++ buffer pointer is modelled by the empty list. -/

inductive PVKind where
  | pvEmpty
  | pvTotal
  | pvPartialC
  | pvByteArray
deriving Repr, DecidableEq

inductive TotalSrc where
  | constSrc (c : LConst)
  | otherSrc (id : Nat)
deriving Repr

structure PartialVal where
  kind : PVKind
  totalSrc : TotalSrc
  pvC : LConst
  readOffset : Nat
  buf : List Nat
  validBuf : List Bool
  bufBytes : Nat
  loadFinished : Bool
deriving Repr

/-- PartialVal::initByteArray(nbytes): switch to byte-array form with a fresh
buffer; an existing valid-mask is kept (`if(!partialValidBuf) ...`), a null
one becomes `nbytes` entries of false.  The C++ byte buffer is uninitialised
memory; it is modelled as zero bytes (no byte is read before being written
or guarded by the valid-mask). -/
def initByteArray (pv : PartialVal) (nbytes : Nat) : PartialVal :=
  { pv with
    kind := .pvByteArray
    buf := List.replicate nbytes 0
    validBuf := if pv.validBuf = [] then List.replicate nbytes false else pv.validBuf
    bufBytes := nbytes
    loadFinished := false }

/-- PartialVal::getPartial(C, Off). -/
def getPartialPV (c : LConst) (off : Nat) : PartialVal :=
  { kind := .pvPartialC, totalSrc := .otherSrc 0, pvC := c, readOffset := off,
    buf := [], validBuf := [], bufBytes := 0, loadFinished := false }

/-- PartialVal::isComplete(): isTotal() || isPartial() || loadFinished. -/
def isComplete (pv : PartialVal) : Bool :=
  pv.kind = .pvTotal ∨ pv.kind = .pvPartialC ∨ pv.loadFinished

/-- The copy loop of combineWith (source lines 251-259): for each byte of
[FirstDef, FirstNotDef), skip it if already marked defined, else take the
corresponding byte of the temporary source buffer. -/
def overwriteUndefined (buf : List Nat) (valid : List Bool) (temp : List Nat)
    (fd fnd : Nat) : List Nat :=
  (List.range buf.length).map
    (fun j =>
      if fd ≤ j ∧ j < fnd ∧ valid.getD j false = false then temp.getD (j - fd) 0
      else buf.getD j 0)

/-- The trailing loop of combineWith (source lines 261-275): mark bytes of
[FirstDef, FirstNotDef) defined and recompute loadFinished, stopping early
("bail out if there is no more setting to do and no hope we have finished")
once loadFinished is known false and the index has passed FirstNotDef. -/
def setDefinedLoop (fd fnd ls : Nat) (i : Nat) (valid : List Bool) (lf : Bool) :
    List Bool × Bool :=
  if h : i < ls ∧ (lf = true ∨ i < fnd) then
    if fd ≤ i ∧ i < fnd then
      setDefinedLoop fd fnd ls (i + 1) (valid.set i true) lf
    else if valid.getD i false then
      setDefinedLoop fd fnd ls (i + 1) valid lf
    else
      setDefinedLoop fd fnd ls (i + 1) valid false
  else
    (valid, lf)
termination_by ls - i
decreasing_by
  all_goals omega

/-- The byte-array part of PartialVal::combineWith, entered once `pv` is (or
has just been turned into) a byte array.  A PVTotal source whose value is not
a constant fails with "PP2"; a PVPartial source whose constant cannot be read
bytewise fails with "RDFG"; otherwise the source bytes are merged without
overwriting already-defined bytes and loadFinished is recomputed. -/
def combineCore (pv Other : PartialVal) (fd fnd ls : Nat) : Except String PartialVal :=
  let otherP : Except String PartialVal :=
    if Other.kind = .pvTotal then
      match Other.totalSrc with
      | .constSrc c => .ok { Other with pvC := c, readOffset := 0, kind := .pvPartialC }
      | .otherSrc _ => .error "PP2"
    else .ok Other
  match otherP with
  | .error e => .error e
  | .ok o =>
    let tempB : Except String (List Nat) :=
      if o.kind = .pvPartialC then
        match rdfg o.pvC o.readOffset (fnd - fd) with
        | some bs => .ok bs
        | none => .error "RDFG"
      else .ok o.buf
    match tempB with
    | .error e => .error e
    | .ok temp =>
      let buf2 := overwriteUndefined pv.buf pv.validBuf temp fd fnd
      let vl := setDefinedLoop fd fnd ls 0 pv.validBuf true
      .ok { pv with buf := buf2, validBuf := vl.1, loadFinished := vl.2 }

/-- PartialVal::combineWith(Other, FirstDef, FirstNotDef, LoadSize, TD, error):
an empty PartialVal adopts a source that exactly and fully satisfies the
request; otherwise an empty PartialVal first becomes a byte array of LoadSize
bytes and the byte-array merge runs. -/
def combineWith (pv Other : PartialVal) (fd fnd ls : Nat) : Except String PartialVal :=
  if pv.kind = .pvEmpty ∧ fd = 0 ∧ fnd - fd = ls then .ok Other
  else
    combineCore (if pv.kind = .pvEmpty then initByteArray pv ls else pv) Other fd fnd ls

/-- PartialVal::convertToBytes(size): already a byte array, or merge this
value into a fresh byte array of `size` bytes (the PartialVal(uint64_t)
constructor) over the full range. -/
def convertToBytes (pv : PartialVal) (size : Nat) : Except String PartialVal :=
  if pv.kind = .pvByteArray then .ok pv
  else
    combineWith (initByteArray (getPartialPV (.cUndef 0) 0) size) pv 0 size size

theorem getD_rangeMap {α : Type} (n : Nat) (f : Nat → α) (j : Nat) (d : α) :
    ((List.range n).map f).getD j d = if j < n then f j else d := by
  by_cases h : j < n
  · simp [List.getD_eq_getElem?_getD, List.getElem?_map, List.getElem?_range, h]
  · have hnone : (List.range n)[j]? = none := by
      rw [List.getElem?_eq_none]
      simp
      omega
    simp [List.getD_eq_getElem?_getD, List.getElem?_map, hnone, h]

theorem overwriteUndefined_getD (buf : List Nat) (valid : List Bool) (temp : List Nat)
    (fd fnd j : Nat) (hj : j < buf.length) :
    (overwriteUndefined buf valid temp fd fnd).getD j 0 =
      if fd ≤ j ∧ j < fnd ∧ valid.getD j false = false then temp.getD (j - fd) 0
      else buf.getD j 0 := by
  simp [overwriteUndefined, getD_rangeMap, hj]

theorem getD_set_bool (l : List Bool) (i j : Nat) (a d : Bool) :
    (l.set i a).getD j d = if i = j ∧ i < l.length then a else l.getD j d := by
  by_cases h : i = j
  · subst h
    by_cases h2 : i < l.length
    · simp [List.getD_eq_getElem?_getD, List.getElem?_set_self, h2]
    · simp [List.getD_eq_getElem?_getD, h2, List.set_eq_of_length_le (by omega : l.length ≤ i)]
  · simp [List.getD_eq_getElem?_getD, List.getElem?_set_ne h, h]

theorem setDefinedLoop_fst (fd fnd ls : Nat) (hfl : fnd ≤ ls) :
    ∀ i (valid : List Bool) (lf : Bool), fnd ≤ valid.length →
      ∀ j, (setDefinedLoop fd fnd ls i valid lf).1.getD j false =
        if fd ≤ j ∧ j < fnd ∧ i ≤ j then true else valid.getD j false := by
  intro i
  induction' hi : (ls - i) using Nat.strong_induction_on with n ih generalizing i
  subst hi
  intro valid lf hlen j
  rw [setDefinedLoop]
  by_cases hc : i < ls ∧ (lf = true ∨ i < fnd)
  · rw [dif_pos hc]
    by_cases hr : fd ≤ i ∧ i < fnd
    · rw [if_pos hr]
      rw [ih (ls - (i + 1)) (by omega) (i + 1) rfl (valid.set i true)
        lf (by simp; omega) j]
      rw [getD_set_bool]
      by_cases hji : j = i
      · subst hji
        simp [hr, hr.1, hr.2, Nat.lt_of_lt_of_le hr.2 hlen]
      · have hne2 : ¬(i = j ∧ i < valid.length) := by
          intro hcon
          exact hji hcon.1.symm
        rw [if_neg hne2]
        by_cases hin : fd ≤ j ∧ j < fnd
        · have heq : (i ≤ j) = (i + 1 ≤ j) := by
            apply propext
            constructor <;> intro h2 <;> omega
          simp [hin, heq]
        · rw [if_neg (by intro hcon; exact hin ⟨hcon.1, hcon.2.1⟩)]
          rw [if_neg (by intro hcon; exact hin ⟨hcon.1, hcon.2.1⟩)]
    · rw [if_neg hr]
      have step : ∀ lf2 : Bool,
          (setDefinedLoop fd fnd ls (i + 1) valid lf2).1.getD j false =
            if fd ≤ j ∧ j < fnd ∧ i + 1 ≤ j then true else valid.getD j false := by
        intro lf2
        exact ih (ls - (i + 1)) (by omega) (i + 1) rfl valid lf2 hlen j
      have heq : (if fd ≤ j ∧ j < fnd ∧ i + 1 ≤ j then (true : Bool) else valid.getD j false) =
          if fd ≤ j ∧ j < fnd ∧ i ≤ j then true else valid.getD j false := by
        by_cases hin : fd ≤ j ∧ j < fnd
        · have hji : j ≠ i := by
            intro h2
            subst h2
            exact hr hin
          have heq2 : (i + 1 ≤ j) = (i ≤ j) := by
            apply propext
            constructor <;> intro h3 <;> omega
          simp [hin, heq2]
        · rw [if_neg (by intro hcon; exact hin ⟨hcon.1, hcon.2.1⟩)]
          rw [if_neg (by intro hcon; exact hin ⟨hcon.1, hcon.2.1⟩)]
      by_cases hv : valid.getD i false = true
      · rw [if_pos hv, step lf, heq]
      · rw [if_neg hv, step false, heq]
  · rw [dif_neg hc]
    have hout : ¬(fd ≤ j ∧ j < fnd ∧ i ≤ j) := by
      intro hcon
      rcases hcon with ⟨h1, h2, h3⟩
      rcases not_and_or.mp hc with h4 | h4
      · omega
      · rcases lf with _ | _
        · simp at h4
          omega
        · simp at h4
    rw [if_neg hout]

theorem setDefinedLoop_snd (fd fnd ls : Nat) :
    ∀ i (valid : List Bool) (lf : Bool),
      ((setDefinedLoop fd fnd ls i valid lf).2 = true ↔
        (lf = true ∧ ∀ j, i ≤ j → j < ls → ¬(fd ≤ j ∧ j < fnd) →
          valid.getD j false = true)) := by
  intro i
  induction' hi : (ls - i) using Nat.strong_induction_on with n ih generalizing i
  subst hi
  intro valid lf
  rw [setDefinedLoop]
  by_cases hc : i < ls ∧ (lf = true ∨ i < fnd)
  · rw [dif_pos hc]
    by_cases hr : fd ≤ i ∧ i < fnd
    · rw [if_pos hr]
      rw [ih (ls - (i + 1)) (by omega) (i + 1) rfl (valid.set i true) lf]
      constructor
      · rintro ⟨hlf, hall⟩
        refine ⟨hlf, fun j h1 h2 h3 => ?_⟩
        have hji : j ≠ i := by
          intro h4
          subst h4
          exact h3 hr
        have hres := hall j (by omega) h2 h3
        rwa [getD_set_bool, if_neg (fun hcon => hji hcon.1.symm)] at hres
      · rintro ⟨hlf, hall⟩
        refine ⟨hlf, fun j h1 h2 h3 => ?_⟩
        have hji : j ≠ i := by omega
        rw [getD_set_bool, if_neg (fun hcon => hji hcon.1.symm)]
        exact hall j (by omega) h2 h3
    · rw [if_neg hr]
      by_cases hv : valid.getD i false = true
      · rw [if_pos hv]
        rw [ih (ls - (i + 1)) (by omega) (i + 1) rfl valid lf]
        constructor
        · rintro ⟨hlf, hall⟩
          refine ⟨hlf, fun j h1 h2 h3 => ?_⟩
          by_cases hji : j = i
          · subst hji
            exact hv
          · exact hall j (by omega) h2 h3
        · rintro ⟨hlf, hall⟩
          exact ⟨hlf, fun j h1 h2 h3 => hall j (by omega) h2 h3⟩
      · rw [if_neg hv]
        rw [ih (ls - (i + 1)) (by omega) (i + 1) rfl valid false]
        simp only [Bool.false_eq_true, false_and, false_iff]
        intro hcon
        exact absurd (hcon.2 i (le_refl i) hc.1 hr) hv
  · rw [dif_neg hc]
    rcases not_and_or.mp hc with h4 | h4
    · constructor
      · intro hlf
        exact ⟨hlf, fun j h1 h2 h3 => by omega⟩
      · exact fun h => h.1
    · rcases hlf2 : lf with _ | _
      · simp
      · exfalso
        rw [hlf2] at h4
        simp at h4

/-- Claim C3: combining a byte-array PartialVal with another definition never
overwrites an already-defined byte (first writer wins per byte); bytes
outside [FirstDef, FirstNotDef) are untouched; and a PVTotal source whose
value is not a constant makes the call fail with an error ("PP2") instead of
writing anything. -/
theorem combineWith_preserves_defined_bytes
    (pv Other : PartialVal) (fd fnd ls : Nat)
    (hk : pv.kind = .pvByteArray)
    (hlen : pv.buf.length = pv.bufBytes) :
    (∀ pv2, combineWith pv Other fd fnd ls = .ok pv2 →
      (∀ j, j < pv.bufBytes → pv.validBuf.getD j false = true →
        pv2.buf.getD j 0 = pv.buf.getD j 0)
      ∧ (∀ j, j < pv.bufBytes → (j < fd ∨ fnd ≤ j) →
        pv2.buf.getD j 0 = pv.buf.getD j 0))
    ∧ (∀ src, Other.kind = .pvTotal → Other.totalSrc = .otherSrc src →
        combineWith pv Other fd fnd ls = .error "PP2") := by
  have hne : pv.kind ≠ .pvEmpty := by
    rw [hk]
    intro h
    exact absurd h (by simp)
  constructor
  · intro pv2 hok
    rw [combineWith] at hok
    rw [if_neg (fun hcon => hne hcon.1), if_neg hne] at hok
    rw [combineCore] at hok
    have hbuf : ∃ temp, pv2.buf = overwriteUndefined pv.buf pv.validBuf temp fd fnd := by
      rcases h1 : (if Other.kind = .pvTotal then
          match Other.totalSrc with
          | .constSrc c => Except.ok { Other with pvC := c, readOffset := 0, kind := .pvPartialC }
          | .otherSrc _ => Except.error "PP2"
        else Except.ok Other) with e | o
      · rw [h1] at hok
        simp at hok
      · rw [h1] at hok
        simp only at hok
        by_cases h2 : o.kind = .pvPartialC
        · rcases h3 : rdfg o.pvC o.readOffset (fnd - fd) with _ | bs
          · simp [h2, h3] at hok
          · refine ⟨bs, ?_⟩
            simp only [h2, if_pos, h3] at hok
            simp only [Except.ok.injEq] at hok
            subst hok
            rfl
        · refine ⟨o.buf, ?_⟩
          simp only [h2, if_neg, not_false_eq_true] at hok
          simp only [Except.ok.injEq] at hok
          subst hok
          rfl
    obtain ⟨temp, hbuf⟩ := hbuf
    constructor
    · intro j hj hvalid
      rw [hbuf, overwriteUndefined_getD _ _ _ _ _ _ (by omega)]
      rw [if_neg]
      intro hcon
      rw [hvalid] at hcon
      simp at hcon
    · intro j hj hout
      rw [hbuf, overwriteUndefined_getD _ _ _ _ _ _ (by omega)]
      rw [if_neg]
      intro hcon
      rcases hout with h | h
      · omega
      · omega
  · intro src htot hsrc
    rw [combineWith, if_neg (fun hcon => hne hcon.1), if_neg hne, combineCore]
    simp [htot, hsrc]

/-- The byte-array completeness invariant: loadFinished agrees with the
valid-mask covering every byte of the requested load. -/
def pvInv (pv : PartialVal) (ls : Nat) : Prop :=
  pv.kind = .pvByteArray →
    (pv.loadFinished = true ↔ ∀ j, j < ls → pv.validBuf.getD j false = true)

/-- An empty PartialVal (default-constructed) has no buffers and no finished
load. -/
def pvEmptyInv (pv : PartialVal) : Prop :=
  pv.kind = .pvEmpty → pv.validBuf = [] ∧ pv.loadFinished = false

/-- Claim C8: after a successful combineWith, isComplete() holds exactly when
the value is a lightweight (total or partial-reference-into-a-constant) form,
or every byte of the requested LoadSize range is marked defined in the
validity mask. -/
theorem isComplete_iff_all_defined
    (pv Other pv2 : PartialVal) (fd fnd ls : Nat)
    (hOinv : pvInv Other ls)
    (hOempty : pvEmptyInv Other)
    (hpvempty : pvEmptyInv pv)
    (hvl : pv.kind = .pvByteArray → fnd ≤ pv.validBuf.length)
    (hfl : fnd ≤ ls)
    (hls : 0 < ls)
    (h : combineWith pv Other fd fnd ls = .ok pv2) :
    (isComplete pv2 = true ↔
      (pv2.kind = .pvTotal ∨ pv2.kind = .pvPartialC ∨
        ∀ j, j < ls → pv2.validBuf.getD j false = true)) := by
  rw [combineWith] at h
  by_cases hadopt : pv.kind = .pvEmpty ∧ fd = 0 ∧ fnd - fd = ls
  · rw [if_pos hadopt] at h
    simp only [Except.ok.injEq] at h
    subst h
    rcases hko : Other.kind with _ | _ | _ | _
    · have he := hOempty hko
      simp only [isComplete, hko]
      simp only [he.2]
      constructor
      · intro hcon
        simp at hcon
      · rintro (hcon | hcon | hall)
        · simp at hcon
        · simp at hcon
        · have := hall 0 hls
          rw [he.1] at this
          simp at this
    · simp [isComplete, hko]
    · simp [isComplete, hko]
    · have hinv := hOinv hko
      simp only [isComplete, hko]
      constructor
      · intro hlf
        right
        right
        exact hinv.mp (by simpa using hlf)
      · rintro (hcon | hcon | hall)
        · simp at hcon
        · simp at hcon
        · simp [hinv.mpr hall]
  · rw [if_neg hadopt] at h
    set pv1 := if pv.kind = .pvEmpty then initByteArray pv ls else pv with hpv1
    rw [combineCore] at h
    rcases h1 : (if Other.kind = .pvTotal then
        match Other.totalSrc with
        | .constSrc c => Except.ok { Other with pvC := c, readOffset := 0, kind := .pvPartialC }
        | .otherSrc _ => Except.error "PP2"
      else Except.ok Other) with e | o
    · rw [h1] at h
      simp at h
    · rw [h1] at h
      simp only at h
      have hmain : pv2 = { pv1 with
          buf := overwriteUndefined pv1.buf pv1.validBuf
            (if o.kind = .pvPartialC then
              match rdfg o.pvC o.readOffset (fnd - fd) with
              | some bs => bs
              | none => []
            else o.buf) fd fnd,
          validBuf := (setDefinedLoop fd fnd ls 0 pv1.validBuf true).1,
          loadFinished := (setDefinedLoop fd fnd ls 0 pv1.validBuf true).2 } := by
        by_cases h2 : o.kind = .pvPartialC
        · rcases h3 : rdfg o.pvC o.readOffset (fnd - fd) with _ | bs
          · simp [h2, h3] at h
          · simp only [h2, if_pos, h3] at h
            simp only [Except.ok.injEq] at h
            rw [← h]
            simp [h2, h3]
        · simp only [h2, if_neg, not_false_eq_true] at h
          simp only [Except.ok.injEq] at h
          rw [← h]
          simp [h2]
      rw [hmain]
      rcases hk1 : pv1.kind with _ | _ | _ | _
      · exfalso
        rw [hpv1] at hk1
        by_cases hke : pv.kind = .pvEmpty
        · rw [if_pos hke] at hk1
          simp [initByteArray] at hk1
        · rw [if_neg hke] at hk1
          exact hke hk1
      · simp [isComplete, hk1]
      · simp [isComplete, hk1]
      · have hvl1 : fnd ≤ pv1.validBuf.length := by
          rw [hpv1]
          by_cases hke : pv.kind = .pvEmpty
          · rw [if_pos hke]
            simp only [initByteArray]
            rw [(hpvempty hke).1]
            simp
            omega
          · rw [if_neg hke]
            apply hvl
            rw [hpv1, if_neg hke] at hk1
            exact hk1
        simp only [isComplete, hk1]
        simp only [decide_eq_true_eq]
        constructor
        · intro hlf
          right
          right
          have hlf2 : (setDefinedLoop fd fnd ls 0 pv1.validBuf true).2 = true := by
            rcases hlf with h | h | h
            · simp at h
            · simp at h
            · exact h
          rw [setDefinedLoop_snd] at hlf2
          intro j hj
          rw [setDefinedLoop_fst fd fnd ls hfl 0 pv1.validBuf true hvl1 j]
          by_cases hin : fd ≤ j ∧ j < fnd
          · simp [hin]
          · rw [if_neg (by intro hcon; exact hin ⟨hcon.1, hcon.2.1⟩)]
            exact hlf2.2 j (by omega) hj hin
        · rintro (hcon | hcon | hall)
          · simp at hcon
          · simp at hcon
          · right
            right
            rw [setDefinedLoop_snd]
            refine ⟨rfl, fun j h1 h2 h3 => ?_⟩
            have := hall j h2
            rw [setDefinedLoop_fst fd fnd ls hfl 0 pv1.validBuf true hvl1 j] at this
            rwa [if_neg (by intro hcon; exact h3 ⟨hcon.1, hcon.2.1⟩)] at this

/-- A concrete byte-array PartialVal: bytes 0 and 3 already defined. -/
def pvEx3 : PartialVal :=
  { kind := .pvByteArray, totalSrc := .otherSrc 0, pvC := .cUndef 0, readOffset := 0,
    buf := [9, 8, 7, 6], validBuf := [true, false, false, true], bufBytes := 4,
    loadFinished := false }

/-- A concrete PVTotal definition carrying the constant i32 0x04030201. -/
def otherEx3 : PartialVal :=
  { kind := .pvTotal, totalSrc := .constSrc (.cInt [1, 2, 3, 4]), pvC := .cUndef 0,
    readOffset := 0, buf := [], validBuf := [], bufBytes := 0, loadFinished := false }

theorem combineWith_preserves_defined_bytes_witness :
    pvEx3.validBuf.getD 3 false = true ∧
    (∀ pv2, combineWith pvEx3 otherEx3 1 3 4 = .ok pv2 →
      pv2.buf.getD 3 0 = pvEx3.buf.getD 3 0) :=
  ⟨by decide,
   fun pv2 h =>
     ((combineWith_preserves_defined_bytes pvEx3 otherEx3 1 3 4 rfl rfl).1 pv2 h).1
       3 (by decide) (by decide)⟩

/-- A concrete empty PartialVal. -/
def pvEx8 : PartialVal :=
  { kind := .pvEmpty, totalSrc := .otherSrc 0, pvC := .cUndef 0, readOffset := 0,
    buf := [], validBuf := [], bufBytes := 0, loadFinished := false }

/-- A concrete fully-defined byte-array PartialVal. -/
def otherEx8 : PartialVal :=
  { kind := .pvByteArray, totalSrc := .otherSrc 0, pvC := .cUndef 0, readOffset := 0,
    buf := [5, 6], validBuf := [true, true], bufBytes := 2, loadFinished := true }

theorem isComplete_iff_all_defined_witness :
    (0 : Nat) < 2 ∧
    (isComplete otherEx8 = true ↔
      (otherEx8.kind = .pvTotal ∨ otherEx8.kind = .pvPartialC ∨
        ∀ j, j < 2 → otherEx8.validBuf.getD j false = true)) :=
  ⟨by decide,
   isComplete_iff_all_defined pvEx8 otherEx8 otherEx8 0 2 2
     (by intro _; exact ⟨fun _ => by decide, fun _ => rfl⟩)
     (by intro h; exact absurd h (by decide))
     (fun _ => ⟨rfl, rfl⟩)
     (by intro h; exact absurd h (by decide))
     (by decide) (by decide) rfl⟩

/-! ## Type coercion (ImprovedValSetSingle::coerceToType)

LLVM types are modelled by `LType`; aggregates are represented by nested
pairs, which is all `containsPointerTypes` needs (it only walks subtypes).
The two implicit-cast early-outs (allowTotalDefnImplicitCast and
allowTotalDefnImplicitPtrToInt, defined outside this translation unit) are
passed in as booleans; the claims below hold for every instantiation.
`constFromBytes` is a stand-in returning an integer constant carrying the
reinterpreted bytes: for a pointer-containing target the function has
already established that the bytes are all zero (the null pointer case), and
none of the properties proved here inspect the synthesized value. -/

inductive LType where
  | intT (n : Nat)
  | ptrT
  | pairT (a b : LType)
deriving Repr, DecidableEq

/-- containsPointerTypes(Ty): the type is a pointer or has a subtype that
contains a pointer. -/
def containsPointerTypes : LType → Bool
  | .ptrT => true
  | .intT _ => false
  | .pairT a b => containsPointerTypes a || containsPointerTypes b

def constFromBytes (bs : List Nat) (_t : LType) : LConst :=
  .cInt bs

/-- The value-set tags of the source's ValSetType enum used by
coerceToType. -/
inductive VST where
  | vstScalar
  | vstScalarSplat
  | vstPB
  | vstVarArg
deriving Repr, DecidableEq

/-- ImprovedValSetSingle restricted to what coerceToType reads: the tag and
the candidate values (on the scalar path each is a constant). -/
structure IVS9 where
  setType : VST
  values : List LConst
deriving Repr

/-- The per-member loop of coerceToType: reinterpret each candidate constant
as TargetSize raw bytes; if the target type contains a pointer type, only an
all-zero byte pattern (a null pointer) is accepted. -/
def coerceVals (target : LType) (targetSize : Nat) : List LConst → Except String (List LConst)
  | [] => .ok []
  | c :: rest =>
    match convertToBytes (getPartialPV c 0) targetSize with
    | .error e => .error e
    | .ok pvr =>
      if containsPointerTypes target ∧ pvr.buf.any (fun b => b ≠ 0) then
        .error "Cast non-zero to pointer"
      else
        match coerceVals target targetSize rest with
        | .error e => .error e
        | .ok rest2 => .ok (constFromBytes pvr.buf target :: rest2)

/-- ImprovedValSetSingle::coerceToType(Target, TargetSize, error): casts are
ignored for variadic-argument sets; implicit casts pass the set through; a
non-scalar set fails; otherwise each member is reinterpret-cast bytewise. -/
def coerceToType (allowCast allowPtrToInt : Bool) (ivs : IVS9) (target : LType)
    (targetSize : Nat) : Except String IVS9 :=
  if ivs.setType = .vstVarArg then .ok ivs
  else if allowCast then .ok ivs
  else if allowPtrToInt then .ok ivs
  else if ivs.setType ≠ .vstScalar then .error "Non-scalar coercion"
  else
    match coerceVals target targetSize ivs.values with
    | .error e => .error e
    | .ok vs => .ok { ivs with values := vs }

theorem coerceVals_ok_all_zero (target : LType) (ts : Nat)
    (hT : containsPointerTypes target = true) :
    ∀ l vs, coerceVals target ts l = .ok vs →
      ∀ c ∈ l, ∀ pvr, convertToBytes (getPartialPV c 0) ts = .ok pvr →
        ∀ b ∈ pvr.buf, b = 0 := by
  intro l
  induction l with
  | nil =>
    intro vs _ c hc
    simp at hc
  | cons c0 rest ih =>
    intro vs hok c hc pvr hpvr b hb
    rw [coerceVals] at hok
    rcases h1 : convertToBytes (getPartialPV c0 0) ts with e | pvr0
    · rw [h1] at hok
      simp at hok
    · rw [h1] at hok
      simp only at hok
      by_cases h2 : containsPointerTypes target ∧ pvr0.buf.any (fun b => b ≠ 0)
      · rw [if_pos h2] at hok
        simp at hok
      · rw [if_neg h2] at hok
        rcases List.mem_cons.mp hc with hc | hc
        · subst hc
          rw [h1] at hpvr
          simp only [Except.ok.injEq] at hpvr
          subst hpvr
          have h3 : ¬pvr0.buf.any (fun x => x ≠ 0) = true := fun ha => h2 ⟨hT, ha⟩
          simp only [List.any_eq_true, not_exists, not_and] at h3
          have := h3 b hb
          simpa using this
        · rcases h4 : coerceVals target ts rest with e | rest2
          · rw [h4] at hok
            simp at hok
          · exact ih rest2 h4 c hc pvr hpvr b hb

theorem coerceVals_nonzero_error (target : LType) (ts : Nat)
    (hT : containsPointerTypes target = true) :
    ∀ l, (∀ c ∈ l, ∃ pvr, convertToBytes (getPartialPV c 0) ts = .ok pvr) →
      (∃ c ∈ l, ∃ pvr, convertToBytes (getPartialPV c 0) ts = .ok pvr ∧
        ∃ b ∈ pvr.buf, b ≠ 0) →
      coerceVals target ts l = .error "Cast non-zero to pointer" := by
  intro l
  induction l with
  | nil =>
    rintro _ ⟨c, hc, _⟩
    simp at hc
  | cons c0 rest ih =>
    rintro hall ⟨c, hc, pvr, hpvr, b, hb, hbne⟩
    obtain ⟨pvr0, hok0⟩ := hall c0 (by simp)
    rw [coerceVals, hok0]
    simp only
    by_cases h2 : containsPointerTypes target ∧ pvr0.buf.any (fun x => x ≠ 0)
    · rw [if_pos h2]
    · rw [if_neg h2]
      have hcrest : c ∈ rest := by
        rcases List.mem_cons.mp hc with hc | hc
        · subst hc
          rw [hok0] at hpvr
          simp only [Except.ok.injEq] at hpvr
          subst hpvr
          exfalso
          apply h2
          refine ⟨hT, ?_⟩
          simp only [List.any_eq_true]
          exact ⟨b, hb, by simpa using hbne⟩
        · exact hc
      have hrec := ih (fun c2 hc2 => hall c2 (by simp [hc2]))
        ⟨c, hcrest, pvr, hpvr, b, hb, hbne⟩
      rw [hrec]

/-- Claim C9: on the byte-rebuild path of coerceToType (scalar set, no
implicit cast applies) with a pointer-containing target type, the coercion
succeeds only if every reinterpreted byte of every candidate is zero, and if
some candidate reinterprets to a non-zero byte the call fails with exactly
the error string "Cast non-zero to pointer" - no non-null pointer is ever
synthesized from raw bytes. -/
theorem coerceToType_nonzero_pointer_rejected
    (allowCast allowPtrToInt : Bool) (ivs : IVS9) (target : LType) (targetSize : Nat)
    (hC : allowCast = false) (hP : allowPtrToInt = false)
    (hS : ivs.setType = .vstScalar)
    (hT : containsPointerTypes target = true) :
    (∀ ivs2, coerceToType allowCast allowPtrToInt ivs target targetSize = .ok ivs2 →
      ∀ c ∈ ivs.values, ∀ pvr, convertToBytes (getPartialPV c 0) targetSize = .ok pvr →
        ∀ b ∈ pvr.buf, b = 0)
    ∧ ((∀ c ∈ ivs.values, ∃ pvr, convertToBytes (getPartialPV c 0) targetSize = .ok pvr) →
       (∃ c ∈ ivs.values, ∃ pvr, convertToBytes (getPartialPV c 0) targetSize = .ok pvr ∧
          ∃ b ∈ pvr.buf, b ≠ 0) →
       coerceToType allowCast allowPtrToInt ivs target targetSize =
         .error "Cast non-zero to pointer") := by
  subst hC hP
  have hnv : ¬ivs.setType = .vstVarArg := by
    rw [hS]
    intro h
    exact absurd h (by simp)
  have hns : ¬ivs.setType ≠ .vstScalar := by
    rw [hS]
    simp
  constructor
  · intro ivs2 hok
    rw [coerceToType, if_neg hnv, if_neg (by simp), if_neg (by simp), if_neg hns] at hok
    rcases h1 : coerceVals target targetSize ivs.values with e | vs
    · rw [h1] at hok
      simp at hok
    · exact coerceVals_ok_all_zero target targetSize hT ivs.values vs h1
  · intro hall hex
    rw [coerceToType, if_neg hnv, if_neg (by simp), if_neg (by simp), if_neg hns]
    rw [coerceVals_nonzero_error target targetSize hT ivs.values hall hex]

/-- The byte-array resulting from reinterpreting the constant i16 0x0001 as
two raw bytes. -/
def pvrEx9 : PartialVal :=
  { kind := .pvByteArray, totalSrc := .otherSrc 0, pvC := .cUndef 0, readOffset := 0,
    buf := [1, 0], validBuf := [true, true], bufBytes := 2, loadFinished := true }

theorem convertToBytesEx9 :
    convertToBytes (getPartialPV (.cInt [1, 0]) 0) 2 = .ok pvrEx9 := by
  rw [convertToBytes]
  rw [if_neg (by decide)]
  rw [combineWith]
  rw [if_neg (by decide)]
  rw [if_neg (by decide)]
  rw [combineCore]
  simp only [getPartialPV, initByteArray, reduceIte]
  rw [setDefinedLoop]
  rw [setDefinedLoop]
  rw [setDefinedLoop]
  simp [rdfg, readableC, bytesOf, overwriteUndefined, pvrEx9, List.range_succ]

theorem coerceToType_nonzero_pointer_rejected_witness :
    containsPointerTypes .ptrT = true ∧
    coerceToType false false ⟨.vstScalar, [.cInt [1, 0]]⟩ .ptrT 2 =
      .error "Cast non-zero to pointer" :=
  ⟨by decide,
   (coerceToType_nonzero_pointer_rejected false false ⟨.vstScalar, [.cInt [1, 0]]⟩
      .ptrT 2 rfl rfl rfl (by decide)).2
     (by
       intro c hc
       simp only [List.mem_singleton] at hc
       subst hc
       exact ⟨pvrEx9, convertToBytesEx9⟩)
     ⟨.cInt [1, 0], by simp, pvrEx9, convertToBytesEx9, 1, by
       constructor
       · simp [pvrEx9]
       · decide⟩⟩

/-! ## Aggregate decomposition (getConstSubVals) and reconstruction (valsToConst)

An extent (IVSRange in the source) is a ((start, end), value-set) pair; the
value-set payload is abstracted to its payload: a constant (wrapped by the
AddIVSConst macro through getValPB) or overdefined.  Extent bounds are int64
in the source (OffsetAbove may be negative), hence Int here.

The source's out-of-bounds branch (LoadForward.cpp lines 1516-1524) recurses
as getConstSubVals(FromC, Offset, FromSize - Offset, OffsetAbove); for
Offset = 0 that recursive call takes the whole-constant fast path and
otherwise (Offset <= FromSize) it takes the in-bounds path, so the embedding
inlines that single step.  For Offset > FromSize the C++ size subtraction
wraps around 2^64; that degenerate region is not modelled (theorems below
stay within Offset <= FromSize) and Nat subtraction truncates instead. -/

inductive CEx where
  | cval (c : LConst)
  | codef
deriving Repr

abbrev IVSRange6 : Type := (Int × Int) × CEx

/-- The AddIVSConst(x, y, z) macro: record extent
[x + OffsetAbove, x + y + OffsetAbove) holding constant z. -/
def addConst (x y : Nat) (oa : Int) (c : LConst) : IVSRange6 :=
  ((oa + (x : Int), oa + ((x + y : Nat) : Int)), .cval c)

/-- StructLayout::getElementContainingOffset: index of the last field whose
offset is not greater than `off` (the layout's offsets are increasing and
start at 0). -/
def elemContaining (fs : List (Nat × LConst)) (off : Nat) : Nat :=
  match fs with
  | [] => 0
  | _ :: rest =>
    match rest with
    | [] => 0
    | (o2, _) :: _ => if o2 ≤ off then 1 + elemContaining rest off else 0

/-- StructLayout::getElementOffset. -/
def fieldOff (fs : List (Nat × LConst)) (i : Nat) : Nat :=
  (fs.getD i (0, .cUndef 0)).1

/-- ConstantStruct::getAggregateElement. -/
def fieldC (fs : List (Nat × LConst)) (i : Nat) : LConst :=
  (fs.getD i (0, .cUndef 0)).2

/-- The whole-element loop of the struct case (source lines 1625-1645): one
extent per field read whole, plus an inter-field padding extent holding an
UndefValue whose type is IntN(TargetSize * 8) - note the source uses the
requested TargetSize there, not the padding width. -/
def wholeFields (fs : List (Nat × LConst)) (i endE targetSize : Nat) (oa : Int) :
    List IVSRange6 :=
  if i < endE then
    let e := fieldC fs i
    let esz := storeSize e
    let thisOff := fieldOff fs i
    let pad :=
      if i + 1 < fs.length then
        let nextOff := fieldOff fs (i + 1)
        let padBytes := nextOff - (thisOff + esz)
        if padBytes ≠ 0 then
          [addConst (thisOff + esz) padBytes oa (.cUndef targetSize)]
        else []
      else []
    addConst thisOff esz oa e :: (pad ++ wholeFields fs (i + 1) endE targetSize oa)
  else []
termination_by endE - i
decreasing_by
  all_goals omega

theorem sizeOf_list_pos (l : List LConst) : 0 < sizeOf l := by
  cases l <;> simp_arith

theorem sizeOf_plist_pos (l : List (Nat × LConst)) : 0 < sizeOf l := by
  cases l <;> simp_arith

theorem sizeOf_getD_elems (el : List LConst) (i : Nat) :
    sizeOf (el.getD i (.cUndef 0)) < 1 + sizeOf el := by
  rcases h : el[i]? with _ | x
  · rw [List.getD_eq_getElem?_getD, h]
    have := sizeOf_list_pos el
    simp
    omega
  · rw [List.getD_eq_getElem?_getD, h]
    have hx : x ∈ el := List.getElem?_mem h
    have := List.sizeOf_lt_of_mem hx
    simp
    omega

theorem sizeOf_getD_fields (fs : List (Nat × LConst)) (i : Nat) :
    sizeOf (fs.getD i (0, .cUndef 0)).2 < 1 + sizeOf fs := by
  rcases h : fs[i]? with _ | x
  · rw [List.getD_eq_getElem?_getD, h]
    have := sizeOf_plist_pos fs
    simp
    omega
  · rw [List.getD_eq_getElem?_getD, h]
    have hx : x ∈ fs := List.getElem?_mem h
    have hlt := List.sizeOf_lt_of_mem hx
    have h2 : sizeOf x.2 < sizeOf x := by
      obtain ⟨a, b⟩ := x
      simp
    simp
    omega

mutual

/-- getConstSubVals(FromC, Offset, TargetSize, OffsetAbove, Dest): describe
FromC[Offset : Offset+TargetSize] as a list of extents.  A whole-constant
read is one extent; a read running past the constant's store size defines
the in-bounds prefix and then pushes the source's literal out-of-bounds
extent IVSR(FromSize, (Offset + TargetSize) - FromSize, Overdef); anything
else is delegated to the per-shape sub-value logic. -/
def getConstSubVals (fromC : LConst) (offset targetSize : Nat) (offsetAbove : Int) :
    List IVSRange6 :=
  let fromSize := storeSize fromC
  if offset = 0 ∧ targetSize = fromSize then
    [addConst 0 targetSize offsetAbove fromC]
  else if offset + targetSize > fromSize then
    (if offset = 0 then [addConst 0 fromSize offsetAbove fromC]
     else getConstSubValsIn fromC offset (fromSize - offset) offsetAbove)
    ++ [(((fromSize : Int), ((offset + targetSize - fromSize : Nat) : Int)), .codef)]
  else
    getConstSubValsIn fromC offset targetSize offsetAbove
termination_by (sizeOf fromC, 1)
decreasing_by
  all_goals simp_wf
  all_goals
    apply Prod.Lex.right
    omega

/-- The in-bounds, non-whole sub-value cases of getConstSubVals: arrays
(partial first element, run of whole elements, partial last element),
structs (same, plus inter-field padding extents), and primitive bytewise
extraction presented as an IntN constant (overdefined if the constant's
bytes cannot be read). -/
def getConstSubValsIn (fromC : LConst) (offset targetSize : Nat) (offsetAbove : Int) :
    List IVSRange6 :=
  match fromC with
  | .cArr es el =>
    let startE := offset / es
    let startOff := offset % es
    let endE := (offset + targetSize) / es
    let endOff := (offset + targetSize) % es
    let sE2 := if startOff = 0 then startE else startE + 1
    let whole :=
      if endE - sE2 = 1 then
        [addConst (sE2 * es) es offsetAbove (el.getD sE2 (.cUndef 0))]
      else if endE - sE2 > 1 then
        [addConst (sE2 * es) (es * (endE - sE2)) offsetAbove
          (.cArr es ((el.drop sE2).take (endE - sE2)))]
      else []
    let fin :=
      if endOff ≠ 0 then
        getConstSubVals (el.getD endE (.cUndef 0)) 0 endOff
          (offsetAbove + ((es * endE : Nat) : Int))
      else []
    if startOff ≠ 0 then
      let thisReadSize := if endE = startE then endOff - startOff else es - startOff
      let pre := getConstSubVals (el.getD startE (.cUndef 0)) startOff thisReadSize
        (offsetAbove + ((es * startE : Nat) : Int))
      if startE = endE then pre
      else if sE2 = endE ∧ endOff = 0 then pre
      else pre ++ whole ++ fin
    else whole ++ fin
  | .cStruct sz fs =>
    let startE := elemContaining fs offset
    let startOff := offset - fieldOff fs startE
    let endE := elemContaining fs (offset + targetSize)
    let endOff := (offset + targetSize) - fieldOff fs endE
    let sE2 := if startOff = 0 then startE else startE + 1
    let whole := wholeFields fs sE2 endE targetSize offsetAbove
    let fin :=
      if endOff ≠ 0 then
        getConstSubVals (fieldC fs endE) 0 endOff
          (offsetAbove + ((fieldOff fs endE : Nat) : Int))
      else []
    if startOff ≠ 0 then
      let startC := fieldC fs startE
      let startCSize := storeSize startC
      let thisReadSize := if endE = startE then endOff - startOff else startCSize - startOff
      let pre := getConstSubVals startC startOff thisReadSize
        (offsetAbove + ((fieldOff fs startE : Nat) : Int))
      if startE = endE then pre
      else if sE2 = endE ∧ endOff = 0 then pre
      else pre ++ whole ++ fin
    else whole ++ fin
  | c =>
    match rdfg c offset targetSize with
    | some bs => [addConst offset targetSize offsetAbove (.cInt bs)]
    | none => [((((offset : Nat) : Int), ((targetSize : Nat) : Int)), .codef)]
termination_by (sizeOf fromC, 0)
decreasing_by
  all_goals simp_wf
  all_goals apply Prod.Lex.left
  all_goals
    first
    | (have h9 := sizeOf_getD_elems el ((offset + targetSize) / es)
       rw [List.getD_eq_getElem?_getD] at h9
       omega)
    | (have h9 := sizeOf_getD_elems el (offset / es)
       rw [List.getD_eq_getElem?_getD] at h9
       omega)
    | (have h9 := sizeOf_getD_fields fs (elemContaining fs (offset + targetSize))
       simp only [fieldC]
       omega)
    | (have h9 := sizeOf_getD_fields fs (elemContaining fs offset)
       simp only [fieldC]
       omega)

end

def isOverdefEx (r : IVSRange6) : Bool :=
  match r.2 with
  | .codef => true
  | .cval _ => false

/-- valsToConst(subVals, TargetSize, targetType): an empty list or any
overdefined extent fails (returns null); a single extent returns its
constant as-is; otherwise each extent's bytes are written into a TargetSize
buffer at the extent's recorded start offset and the buffer is presented as
an IntN constant (callers pass a null targetType on this path).  The
single-extent overdefined sub-case is unreachable after the overdef check
and modelled as failure. -/
def valsToConst (subVals : List IVSRange6) (targetSize : Nat) : Option LConst :=
  if subVals.isEmpty then none
  else if subVals.any isOverdefEx then none
  else if subVals.length = 1 then
    match (subVals.headD ((0, 0), .codef)).2 with
    | .cval c => some c
    | .codef => none
  else
    (subVals.foldlM
      (fun (buf : List Nat) (r : IVSRange6) =>
        match r.2 with
        | .cval c =>
          (rdfg c 0 (r.1.2 - r.1.1).toNat).map (fun bs => writeAt buf r.1.1.toNat bs)
        | .codef => none)
      (List.replicate targetSize 0)).map (fun buf => LConst.cInt buf)

/-- getSubConst(FromC, Offset, TargetSize, targetType = null): decompose with
extents rebased by OffsetAbove = -Offset, then reconstruct. -/
def getSubConst (fromC : LConst) (offset targetSize : Nat) : Option LConst :=
  valsToConst (getConstSubVals fromC offset targetSize (-(offset : Int))) targetSize

/-- Claim C7: evaluating the out-of-bounds decomposition at a concrete input.
For the i64 constant 0x0807060504030201 (store size 8), Offset = 4,
TargetSize = 8, OffsetAbove = 0, the in-bounds part [4, 8) is defined from
the constant's bytes, but the appended overdefined extent is recorded as
((8, 4), Overdef): the source passes the remainder's SIZE where the IVSR
convention (see AddIVSConst and every consumer, e.g. valsToConst) expects
the extent's END offset, and omits OffsetAbove, instead of the extent
((8, 12), Overdef) covering [FromSize, Offset + TargetSize) promised by the
function's own comment. -/
theorem getConstSubVals_oob_extent_malformed :
    getConstSubVals (.cInt [1, 2, 3, 4, 5, 6, 7, 8]) 4 8 0 =
      [((4, 8), .cval (.cInt [5, 6, 7, 8])), ((8, 4), .codef)] := by
  rw [getConstSubVals]
  simp only [getConstSubValsIn, storeSize, rdfg, readableC, bytesOf, addConst]
  norm_num
  decide

/-- Claim C6: evaluating decompose-then-reconstruct at a concrete in-bounds
input.  For the struct { i32, i8 } with layout offsets 0 and 4 and store
size 8 (bytes [5, 8) are trailing padding), reading [4, 8) is in bounds,
and direct byte extraction yields [5, 0, 0, 0]; but getConstSubVals routes
the read of the final i8 member through the out-of-bounds path, emitting an
overdefined extent for the trailing padding, so valsToConst (via
getSubConst) returns failure (null) instead of a constant observationally
equal to the extracted bytes. -/
theorem getSubConst_fails_on_trailing_padding :
    getSubConst (.cStruct 8 [(0, .cInt [1, 2, 3, 4]), (4, .cInt [5])]) 4 4 = none
    ∧ readBytes (.cStruct 8 [(0, .cInt [1, 2, 3, 4]), (4, .cInt [5])]) 4 4 =
      [5, 0, 0, 0] := by
  constructor
  · have hin : getConstSubVals (.cInt [5]) 0 4 0 =
        [((0, 1), .cval (.cInt [5])), ((1, 3), .codef)] := by
      rw [getConstSubVals]
      norm_num [storeSize, addConst]
    have h1 : getConstSubVals (.cStruct 8 [(0, .cInt [1, 2, 3, 4]), (4, .cInt [5])])
        4 4 (-((4 : Nat) : Int)) = [((0, 1), .cval (.cInt [5])), ((1, 3), .codef)] := by
      rw [getConstSubVals]
      rw [getConstSubValsIn]
      simp only [storeSize, elemContaining, fieldOff, fieldC]
      norm_num
      rw [getConstSubValsIn]
      simp only [elemContaining, fieldOff, fieldC]
      norm_num
      rw [wholeFields]
      norm_num [hin]
    rw [getSubConst, h1]
    rfl
  · have hb : bytesOf (.cStruct 8 [(0, .cInt [1, 2, 3, 4]), (4, .cInt [5])]) =
        [1, 2, 3, 4, 5, 0, 0, 0] := by
      rw [bytesOf]
      simp [List.attach, List.attachWith, List.pmap, bytesOf, writeAt, getD_rangeMap,
        List.range_succ]
    rw [readBytes, hb]
    decide

/-! ## Alias resolution (tryResolveImprovedValSetSingles)

ShadowValue bases are modelled by `SV5`: a raw llvm::Value (getVal() is
non-null; `isNullC` marks a ConstantPointerNull), a call argument, a global
variable, or an instruction result carrying its analysis context.  Contexts
(IntegrationAttempt) are either an InlineAttempt, whose ctxContains is plain
identity, or a PeelIteration, whose ctxContains walks parent links; object
identity of contexts is modelled by structural equality of the id-labelled
context chains. -/

inductive Ctx where
  | inlineC (id : Nat)
  | peelC (id : Nat) (parent : Ctx)
deriving Repr, DecidableEq

/-- InlineAttempt::ctxContains / PeelIteration::ctxContains. -/
def ctxContains : Ctx → Ctx → Bool
  | .inlineC i, c => Ctx.inlineC i = c
  | .peelC i p, c => (Ctx.peelC i p = c) || ctxContains p c

inductive SV5 where
  | otherV (v : Nat) (isNullC : Bool)
  | argV (a : Nat)
  | gvV (g : Nat)
  | instV (invar : Nat) (ctx : Ctx)
deriving Repr, DecidableEq

/-- llvm::basesAlias(V1, V2) (LoadForward.cpp lines 3686-3727): raw values,
arguments and globals alias only with an identical base of the same kind;
instruction results alias when they denote the same instruction and one
context contains the other. -/
def basesAlias : SV5 → SV5 → Bool
  | .otherV v n, w =>
    match w with
    | .otherV v2 n2 => v = v2 ∧ n = n2
    | _ => false
  | .argV a, w =>
    match w with
    | .argV a2 => a = a2
    | _ => false
  | .gvV g, w =>
    match w with
    | .gvV g2 => g = g2
    | _ => false
  | .instV i c, w =>
    match w with
    | .instV i2 c2 => if i = i2 then ctxContains c c2 || ctxContains c2 c else false
    | _ => false

structure ImprovedVal5 where
  V : SV5
  Offset : Int
deriving Repr, DecidableEq

/-- The part of ImprovedValSetSingle that the core alias query reads. -/
structure IVS5 where
  Values : List ImprovedVal5
deriving Repr

def LLONG_MAX : Int := 9223372036854775807

/-- AliasAnalysis::UnknownSize (~(uint64_t)0). -/
def UnknownSize : Nat := 18446744073709551615

/-- The candidate skipped by getUniqueNonNullIV: getVal() is non-null and a
ConstantPointerNull. -/
def isNullOtherV : SV5 → Bool
  | .otherV _ n => n
  | _ => false

def getUniqueNonNullIVGo (acc : Option ImprovedVal5) :
    List ImprovedVal5 → Option ImprovedVal5
  | [] => acc
  | iv :: rest =>
    if isNullOtherV iv.V then getUniqueNonNullIVGo acc rest
    else
      match acc with
      | some _ => none
      | none => getUniqueNonNullIVGo (some iv) rest

/-- getUniqueNonNullIV(PB): the unique candidate that is not a null-pointer
constant, if there is exactly one. -/
def getUniqueNonNullIV (pb : IVS5) : Option ImprovedVal5 :=
  getUniqueNonNullIVGo none pb.Values

/-- PBsMustAliasIfStoredAndLoaded: both sets have a unique non-null
candidate and the candidates agree on base and (known) offset. -/
def pbsMustAliasIfStoredAndLoaded (pb1 pb2 : IVS5) : Bool :=
  match getUniqueNonNullIV pb1, getUniqueNonNullIV pb2 with
  | some iv1, some iv2 => iv1.Offset ≠ LLONG_MAX ∧ iv1.Offset = iv2.Offset ∧ iv1.V = iv2.V
  | _, _ => false

inductive SVAAResult where
  | SVNoAlias
  | SVMayAlias
  | SVPartialAlias
  | SVMustAlias
deriving Repr, DecidableEq

/-- The mixed int64_t/uint64_t arithmetic of the disjointness tests
(lines 646-649).  In `Offset + V2Size` the int64 offset converts to uint64
(two's complement), the sum wraps modulo 2^64, and the explicit (int64_t)
cast reinterprets the wrapped sum as signed. -/
def toUInt64c (i : Int) : Nat := (i % 18446744073709551616).toNat

def toInt64c (n : Nat) : Int :=
  if n % 18446744073709551616 < 9223372036854775808 then
    ((n % 18446744073709551616 : Nat) : Int)
  else ((n % 18446744073709551616 : Nat) : Int) - 18446744073709551616

/-- (int64_t)(Offset + Size) exactly as the source computes it. -/
def castOffPlusSize (off : Int) (size : Nat) : Int :=
  toInt64c (toUInt64c off + size)

/-- One iteration of the double loop of tryResolveImprovedValSetSingles
(lines 636-654): none means "continue", some means "return this result". -/
def pairCheck (iv1 iv2 : ImprovedVal5) (v1Size v2Size : Nat) : Option SVAAResult :=
  if ¬basesAlias iv1.V iv2.V then none
  else if iv1.Offset = LLONG_MAX ∨ iv2.Offset = LLONG_MAX then some .SVPartialAlias
  else if ¬((v2Size ≠ UnknownSize ∧ iv1.Offset ≥ castOffPlusSize iv2.Offset v2Size) ∨
            (v1Size ≠ UnknownSize ∧ castOffPlusSize iv1.Offset v1Size ≤ iv2.Offset)) then
    some .SVPartialAlias
  else none

/-- tryResolveImprovedValSetSingles(PB1, V1Size, PB2, V2Size,
usePBKnowledge): must-alias fast path, then the pairwise scan; SVNoAlias
only when every candidate pair is disjoint. -/
def tryResolveImprovedValSetSingles (pb1 : IVS5) (v1Size : Nat) (pb2 : IVS5)
    (v2Size : Nat) : SVAAResult :=
  if v1Size = v2Size ∧ pbsMustAliasIfStoredAndLoaded pb1 pb2 then .SVMustAlias
  else
    match pb1.Values.findSome?
        (fun iv1 => pb2.Values.findSome? (fun iv2 => pairCheck iv1 iv2 v1Size v2Size)) with
    | some r => r
    | none => .SVNoAlias

theorem pairCheck_some (iv1 iv2 : ImprovedVal5) (v1 v2 : Nat) (r : SVAAResult)
    (h : pairCheck iv1 iv2 v1 v2 = some r) : r = .SVPartialAlias := by
  rw [pairCheck] at h
  by_cases h1 : ¬basesAlias iv1.V iv2.V = true
  · rw [if_pos h1] at h
    simp at h
  · rw [if_neg h1] at h
    by_cases h2 : iv1.Offset = LLONG_MAX ∨ iv2.Offset = LLONG_MAX
    · rw [if_pos h2] at h
      simp at h
      exact h.symm
    · rw [if_neg h2] at h
      by_cases h3 : ¬((v2 ≠ UnknownSize ∧ iv1.Offset ≥ castOffPlusSize iv2.Offset v2) ∨
          (v1 ≠ UnknownSize ∧ castOffPlusSize iv1.Offset v1 ≤ iv2.Offset))
      · rw [if_pos h3] at h
        simp at h
        exact h.symm
      · rw [if_neg h3] at h
        simp at h

/-- When the offset is non-negative and offset + size stays below 2^63, the
wrapping cast computes the exact sum. -/
theorem castOffPlusSize_eq (off : Int) (size : Nat) (h0 : 0 ≤ off)
    (h : off + (size : Int) < 9223372036854775808) :
    castOffPlusSize off size = off + size := by
  rw [castOffPlusSize, toUInt64c, toInt64c]
  rw [if_pos (by omega)]
  omega

/-- Claim C5 (amended): when no candidate offset is negative and each
offset + size sum stays below 2^63 (so the int64 casts of lines 646-649
cannot wrap), the alias query never answers SVNoAlias when the two sets hold
candidates with aliasing bases and overlapping byte ranges
[offset, offset + size).  Unconditionally the claim is false: the wrapping
sum judges an overlapping pair disjoint at V1Size = 2^63 (see the
counterexample). -/
theorem tryResolve_no_noAlias_on_overlap
    (pb1 pb2 : IVS5) (v1Size v2Size : Nat) (iv1 iv2 : ImprovedVal5)
    (h1 : iv1 ∈ pb1.Values) (h2 : iv2 ∈ pb2.Values)
    (hb : basesAlias iv1.V iv2.V = true)
    (ho1 : iv1.Offset ≠ LLONG_MAX) (ho2 : iv2.Offset ≠ LLONG_MAX)
    (hs1 : v1Size ≠ UnknownSize) (hs2 : v2Size ≠ UnknownSize)
    (hr1 : 0 ≤ iv1.Offset) (hr2 : 0 ≤ iv2.Offset)
    (hv1 : iv1.Offset + (v1Size : Int) < 9223372036854775808)
    (hv2 : iv2.Offset + (v2Size : Int) < 9223372036854775808)
    (hlap1 : iv1.Offset < iv2.Offset + (v2Size : Int))
    (hlap2 : iv2.Offset < iv1.Offset + (v1Size : Int)) :
    tryResolveImprovedValSetSingles pb1 v1Size pb2 v2Size ≠ .SVNoAlias := by
  have hp : pairCheck iv1 iv2 v1Size v2Size = some .SVPartialAlias := by
    rw [pairCheck]
    rw [if_neg (by simp [hb])]
    rw [if_neg (by
      intro hcon
      rcases hcon with h | h
      · exact ho1 h
      · exact ho2 h)]
    rw [if_pos (by
      rw [castOffPlusSize_eq iv2.Offset v2Size hr2 hv2,
        castOffPlusSize_eq iv1.Offset v1Size hr1 hv1]
      intro hcon
      rcases hcon with ⟨_, h⟩ | ⟨_, h⟩
      · omega
      · omega)]
  rw [tryResolveImprovedValSetSingles]
  by_cases hm : v1Size = v2Size ∧ pbsMustAliasIfStoredAndLoaded pb1 pb2 = true
  · rw [if_pos hm]
    intro hcon
    exact absurd hcon (by simp)
  · rw [if_neg hm]
    rcases hfs : pb1.Values.findSome?
        (fun iv1 => pb2.Values.findSome? (fun iv2 => pairCheck iv1 iv2 v1Size v2Size))
        with _ | r
    · exfalso
      rw [List.findSome?_eq_none_iff] at hfs
      have hinner := hfs iv1 h1
      rw [List.findSome?_eq_none_iff] at hinner
      have := hinner iv2 h2
      rw [hp] at this
      simp at this
    · simp only
      obtain ⟨a, _, ha⟩ := List.exists_of_findSome?_eq_some hfs
      obtain ⟨b, _, hb2⟩ := List.exists_of_findSome?_eq_some ha
      have := pairCheck_some a b v1Size v2Size r hb2
      subst this
      intro hcon
      exact absurd hcon (by simp)

/-- Concrete instance: two singleton pointer sets at the same global base,
ranges [0, 8) and [4, 12), well inside the no-overflow region. -/
theorem tryResolve_no_noAlias_on_overlap_witness :
    basesAlias (SV5.gvV 7) (SV5.gvV 7) = true ∧
    tryResolveImprovedValSetSingles ⟨[⟨.gvV 7, 0⟩]⟩ 8 ⟨[⟨.gvV 7, 4⟩]⟩ 8 ≠ .SVNoAlias :=
  ⟨by decide,
   tryResolve_no_noAlias_on_overlap ⟨[⟨.gvV 7, 0⟩]⟩ ⟨[⟨.gvV 7, 4⟩]⟩ 8 8
     ⟨.gvV 7, 0⟩ ⟨.gvV 7, 4⟩ (by decide) (by decide) (by decide) (by decide)
     (by decide) (by decide) (by decide) (by decide) (by decide) (by decide)
     (by decide) (by decide) (by decide)⟩

/-- Counterexample to claim C5 as stated unconditionally: both candidate
sets sit at global base 7, the byte ranges [0, 2^63) and [2^62, 2^62 + 8)
overlap, yet (int64_t)(0 + 2^63) wraps to INT64_MIN in the second
disjointness test of lines 646-649, the pair is judged disjoint and the
query answers SVNoAlias. -/
theorem tryResolve_noAlias_on_overlap_cex :
    basesAlias (SV5.gvV 7) (SV5.gvV 7) = true ∧
    ((0 : Int) < 4611686018427387904 + ((8 : Nat) : Int) ∧
      (4611686018427387904 : Int) < 0 + ((9223372036854775808 : Nat) : Int)) ∧
    tryResolveImprovedValSetSingles ⟨[⟨.gvV 7, 0⟩]⟩ 9223372036854775808
      ⟨[⟨.gvV 7, 4611686018427387904⟩]⟩ 8 = .SVNoAlias := by
  refine ⟨by decide, by decide, ?_⟩
  decide

/-! ## The copy-on-write shared tree (SharedTreeNode)

SharedTreeNode objects and the leaf value-sets they point to are modelled as
an id-indexed state: `refCnt` holds every node's reference count, `child`
its HEAPTREEORDER child pointers (none = null), and `leafVal` the abstract
content of a leaf-level child (an ImprovedValSet, whose payload is
abstracted to a Nat).  Ids at or above `nextId` are unallocated.  The tree
fan-out HEAPTREEORDER is defined in the out-of-tree header; it is carried
here as a parameter F, so the theorems hold for any fan-out.

getReadableCopy is the one operation modelled from the spec rather than
from src (ImprovedValSet::getReadableCopy lives in the header): per the
spec, the leaf level deep-copies each child "via each value-set's own
readable-copy operation", so it allocates a fresh leaf with the same
content. -/

structure TreeState where
  refCnt : Nat → Nat
  child : Nat → Nat → Option Nat
  leafVal : Nat → Nat
  nextId : Nat

/-- Modelled from the spec: ImprovedValSet::getReadableCopy() for a
leaf-level child - a fresh value-set (refcount 1) with the same content. -/
def getReadableCopy (s : TreeState) (c : Nat) : Nat × TreeState :=
  (s.nextId,
   { s with
     refCnt := fun m => if m = s.nextId then 1 else s.refCnt m
     leafVal := fun m => if m = s.nextId then s.leafVal c else s.leafVal m
     nextId := s.nextId + 1 })

def setChild (s : TreeState) (n i c : Nat) : TreeState :=
  { s with child := fun m j => if m = n ∧ j = i then some c else s.child m j }

def bumpRef (s : TreeState) (c : Nat) : TreeState :=
  { s with refCnt := fun m => if m = c then s.refCnt m + 1 else s.refCnt m }

/-- new SharedTreeNode(): a fresh node with refcount 1 and no children. -/
def allocNode (s : TreeState) : Nat × TreeState :=
  (s.nextId,
   { s with
     refCnt := fun m => if m = s.nextId then 1 else s.refCnt m
     nextId := s.nextId + 1 })

/-- One iteration of the height-0 copy loop (source lines 830-835):
newNode->children[i] = ((ImprovedValSet*)children[i])->getReadableCopy(). -/
def copyLeafStep (n nw : Nat) (st : TreeState) (i : Nat) : TreeState :=
  match st.child n i with
  | none => st
  | some c =>
    let rc := getReadableCopy st c
    setChild rc.2 nw i rc.1

/-- One iteration of the interior-height share loop (source lines 840-847):
children[i]->refCount++; newNode->children[i] = children[i]. -/
def shareChildStep (n nw : Nat) (st : TreeState) (i : Nat) : TreeState :=
  match st.child n i with
  | none => st
  | some c => setChild (bumpRef st c) nw i c

/-- SharedTreeNode::getWritableNode(height): return this node if its
refcount is 1; otherwise allocate a new node, populate its children (deep
leaf copies at height 0, shared-and-bumped interior pointers otherwise) and
drop one reference to this node. -/
def getWritableNode (F : Nat) (s : TreeState) (n height : Nat) : Nat × TreeState :=
  if s.refCnt n = 1 then (n, s)
  else
    let a := allocNode s
    let s2 :=
      if height = 0 then (List.range F).foldl (copyLeafStep n a.1) a.2
      else (List.range F).foldl (shareChildStep n a.1) a.2
    (a.1, { s2 with refCnt := fun m => if m = n then s2.refCnt m - 1 else s2.refCnt m })

theorem copyLeafFold (n nw : Nat) (l : List Nat) (hnd : l.Nodup) :
    ∀ st : TreeState, n < st.nextId → nw < st.nextId → n ≠ nw →
      (∀ i c, st.child n i = some c → c < st.nextId) →
      (st.nextId ≤ (l.foldl (copyLeafStep n nw) st).nextId)
      ∧ (∀ m, m < st.nextId → m ≠ nw →
          (l.foldl (copyLeafStep n nw) st).child m = st.child m)
      ∧ (∀ m, m < st.nextId →
          (l.foldl (copyLeafStep n nw) st).leafVal m = st.leafVal m)
      ∧ (∀ m, m < st.nextId →
          (l.foldl (copyLeafStep n nw) st).refCnt m = st.refCnt m)
      ∧ (∀ i, i ∈ l →
          (st.child n i = none →
            (l.foldl (copyLeafStep n nw) st).child nw i = st.child nw i)
          ∧ (∀ c, st.child n i = some c →
              ∃ c2, (l.foldl (copyLeafStep n nw) st).child nw i = some c2
                ∧ st.nextId ≤ c2
                ∧ (l.foldl (copyLeafStep n nw) st).leafVal c2 = st.leafVal c))
      ∧ (∀ i, i ∉ l → (l.foldl (copyLeafStep n nw) st).child nw i = st.child nw i) := by
  induction l with
  | nil =>
    intro st _ _ _ _
    refine ⟨le_refl _, fun m _ _ => rfl, fun m _ => rfl, fun m _ => rfl, ?_, fun i _ => rfl⟩
    intro i hi
    simp at hi
  | cons i0 rest ih =>
    intro st hn hnw hne hch
    have hnd2 : rest.Nodup := (List.nodup_cons.mp hnd).2
    have hi0 : i0 ∉ rest := (List.nodup_cons.mp hnd).1
    rw [List.foldl_cons]
    rcases hc0 : st.child n i0 with _ | c
    · -- no child in this slot: the step is the identity
      have hst1 : copyLeafStep n nw st i0 = st := by
        rw [copyLeafStep, hc0]
      rw [hst1]
      obtain ⟨g1, g2, g3, g4, g5, g6⟩ := ih hnd2 st hn hnw hne hch
      refine ⟨g1, g2, g3, g4, ?_, ?_⟩
      · intro i hi
        rcases List.mem_cons.mp hi with hieq | hi
        · refine ⟨fun _ => ?_, fun c hc => ?_⟩
          · rw [hieq]
            by_cases hmem : i0 ∈ rest
            · exact (g5 i0 hmem).1 hc0
            · exact g6 i0 hmem
          · rw [hieq, hc0] at hc
            exact absurd hc (by simp)
        · exact g5 i hi
      · intro i hi
        exact g6 i (fun hm => hi (List.mem_cons_of_mem _ hm))
    · -- deep-copy the leaf child c into a fresh id
      have hst1 : copyLeafStep n nw st i0 =
          setChild (getReadableCopy st c).2 nw i0 st.nextId := by
        rw [copyLeafStep, hc0]
        rfl
      rw [hst1]
      set st1 := setChild (getReadableCopy st c).2 nw i0 st.nextId with hst1def
      have hcx : c < st.nextId := hch i0 c hc0
      have e_next : st1.nextId = st.nextId + 1 := rfl
      have e_child : ∀ m j, st1.child m j =
          if m = nw ∧ j = i0 then some st.nextId else st.child m j := fun m j => rfl
      have e_leaf : ∀ m, st1.leafVal m =
          if m = st.nextId then st.leafVal c else st.leafVal m := fun m => rfl
      have e_ref : ∀ m, st1.refCnt m =
          if m = st.nextId then 1 else st.refCnt m := fun m => rfl
      have hch1 : ∀ i c2, st1.child n i = some c2 → c2 < st1.nextId := by
        intro i c2 hc2
        rw [e_child] at hc2
        rw [if_neg (by intro hcon; exact hne hcon.1)] at hc2
        have := hch i c2 hc2
        omega
      obtain ⟨g1, g2, g3, g4, g5, g6⟩ := ih hnd2 st1 (by omega) (by omega) hne hch1
      refine ⟨by omega, ?_, ?_, ?_, ?_, ?_⟩
      · intro m hm hmne
        rw [g2 m (by omega) hmne]
        funext j
        rw [e_child, if_neg (by intro hcon; exact hmne hcon.1)]
      · intro m hm
        rw [g3 m (by omega), e_leaf, if_neg (by omega)]
      · intro m hm
        rw [g4 m (by omega), e_ref, if_neg (by omega)]
      · intro i hi
        rcases List.mem_cons.mp hi with hieq | hi2
        · rw [hieq]
          refine ⟨fun hcon => ?_, fun c2 hc2 => ?_⟩
          · rw [hc0] at hcon
            exact absurd hcon (by simp)
          · rw [hc0] at hc2
            have hc2' : c = c2 := by
              simpa using hc2
            subst hc2'
            refine ⟨st.nextId, ?_, le_refl _, ?_⟩
            · rw [g6 i0 hi0, e_child, if_pos ⟨rfl, rfl⟩]
            · rw [g3 st.nextId (by omega), e_leaf, if_pos rfl]
        · obtain ⟨h5a, h5b⟩ := g5 i hi2
          refine ⟨fun hcon => ?_, fun c2 hc2 => ?_⟩
          · have hnone1 : st1.child n i = none := by
              rw [e_child, if_neg (by intro hcon2; exact hne hcon2.1)]
              exact hcon
            rw [h5a hnone1]
            have hii0 : i ≠ i0 := by
              intro h
              rw [h] at hi2
              exact hi0 hi2
            rw [e_child, if_neg (by intro hcon2; exact hii0 hcon2.2)]
          · have hsome1 : st1.child n i = some c2 := by
              rw [e_child, if_neg (by intro hcon2; exact hne hcon2.1)]
              exact hc2
            obtain ⟨c3, hc3, hc3le, hc3leaf⟩ := h5b c2 hsome1
            refine ⟨c3, hc3, by omega, ?_⟩
            rw [hc3leaf, e_leaf, if_neg (by
              have := hch i c2 hc2
              omega)]
      · intro i hi
        have hii0 : i ≠ i0 := by
          intro h
          subst h
          exact hi (by simp)
        have hirest : i ∉ rest := fun hm => hi (List.mem_cons_of_mem _ hm)
        rw [g6 i hirest, e_child, if_neg (by intro hcon; exact hii0 hcon.2)]

theorem shareChildFold (n nw : Nat) (l : List Nat) (hnd : l.Nodup) :
    ∀ st : TreeState, n ≠ nw →
      (∀ i c, st.child n i = some c → c ≠ n ∧ c ≠ nw) →
      (∀ i j c, i ∈ l → j ∈ l → st.child n i = some c → st.child n j = some c → i = j) →
      ((l.foldl (shareChildStep n nw) st).nextId = st.nextId)
      ∧ (∀ m, m ≠ nw → (l.foldl (shareChildStep n nw) st).child m = st.child m)
      ∧ (∀ m, (l.foldl (shareChildStep n nw) st).leafVal m = st.leafVal m)
      ∧ (∀ i, i ∈ l →
          (st.child n i = none →
            (l.foldl (shareChildStep n nw) st).child nw i = st.child nw i)
          ∧ (∀ c, st.child n i = some c →
              (l.foldl (shareChildStep n nw) st).child nw i = some c
              ∧ (l.foldl (shareChildStep n nw) st).refCnt c = st.refCnt c + 1))
      ∧ (∀ i, i ∉ l → (l.foldl (shareChildStep n nw) st).child nw i = st.child nw i)
      ∧ (∀ m, (∀ i, i ∈ l → st.child n i ≠ some m) →
          (l.foldl (shareChildStep n nw) st).refCnt m = st.refCnt m) := by
  induction l with
  | nil =>
    intro st _ _ _
    refine ⟨rfl, fun m _ => rfl, fun m => rfl, ?_, fun i _ => rfl, fun m _ => rfl⟩
    intro i hi
    simp at hi
  | cons i0 rest ih =>
    intro st hne hch hinj
    have hnd2 : rest.Nodup := (List.nodup_cons.mp hnd).2
    have hi0 : i0 ∉ rest := (List.nodup_cons.mp hnd).1
    rw [List.foldl_cons]
    rcases hc0 : st.child n i0 with _ | c
    · have hst1 : shareChildStep n nw st i0 = st := by
        rw [shareChildStep, hc0]
      rw [hst1]
      obtain ⟨g1, g2, g3, g4, g5, g6⟩ := ih hnd2 st hne hch
        (fun i j c hi hj => hinj i j c (List.mem_cons_of_mem _ hi) (List.mem_cons_of_mem _ hj))
      refine ⟨g1, g2, g3, ?_, ?_, ?_⟩
      · intro i hi
        rcases List.mem_cons.mp hi with hieq | hi2
        · rw [hieq]
          refine ⟨fun _ => ?_, fun c hc => ?_⟩
          · by_cases hmem : i0 ∈ rest
            · exact (g4 i0 hmem).1 hc0
            · exact g5 i0 hmem
          · rw [hc0] at hc
            exact absurd hc (by simp)
        · exact g4 i hi2
      · intro i hi
        exact g5 i (fun hm => hi (List.mem_cons_of_mem _ hm))
      · intro m hm
        exact g6 m (fun i hi => hm i (List.mem_cons_of_mem _ hi))
    · have hst1 : shareChildStep n nw st i0 = setChild (bumpRef st c) nw i0 c := by
        rw [shareChildStep, hc0]
      rw [hst1]
      set st1 := setChild (bumpRef st c) nw i0 c with hst1def
      have e_next : st1.nextId = st.nextId := rfl
      have e_child : ∀ m j, st1.child m j =
          if m = nw ∧ j = i0 then some c else st.child m j := fun m j => rfl
      have e_leaf : ∀ m, st1.leafVal m = st.leafVal m := fun m => rfl
      have e_ref : ∀ m, st1.refCnt m =
          if m = c then st.refCnt m + 1 else st.refCnt m := fun m => rfl
      have e_childn : ∀ j, st1.child n j = st.child n j := by
        intro j
        rw [e_child, if_neg (by intro hcon; exact hne hcon.1)]
      have hch1 : ∀ i c2, st1.child n i = some c2 → c2 ≠ n ∧ c2 ≠ nw := by
        intro i c2 hc2
        rw [e_childn] at hc2
        exact hch i c2 hc2
      have hinj1 : ∀ i j c2, i ∈ rest → j ∈ rest →
          st1.child n i = some c2 → st1.child n j = some c2 → i = j := by
        intro i j c2 hi hj h1 h2
        rw [e_childn] at h1 h2
        exact hinj i j c2 (List.mem_cons_of_mem _ hi) (List.mem_cons_of_mem _ hj) h1 h2
      obtain ⟨g1, g2, g3, g4, g5, g6⟩ := ih hnd2 st1 hne hch1 hinj1
      refine ⟨g1.trans e_next, ?_, ?_, ?_, ?_, ?_⟩
      · intro m hm
        rw [g2 m hm]
        funext j
        rw [e_child, if_neg (by intro hcon; exact hm hcon.1)]
      · intro m
        rw [g3 m, e_leaf]
      · intro i hi
        rcases List.mem_cons.mp hi with hieq | hi2
        · rw [hieq]
          refine ⟨fun hcon => ?_, fun c2 hc2 => ?_⟩
          · rw [hc0] at hcon
            exact absurd hcon (by simp)
          · have hc2' : c = c2 := by
              rw [hc0] at hc2
              simpa using hc2
            subst hc2'
            have hnorest : ∀ j, j ∈ rest → st1.child n j ≠ some c := by
              intro j hj hcon
              rw [e_childn] at hcon
              have := hinj i0 j c (by simp) (List.mem_cons_of_mem _ hj) hc0 hcon
              rw [← this] at hj
              exact hi0 hj
            constructor
            · rw [g5 i0 hi0, e_child, if_pos ⟨rfl, rfl⟩]
            · rw [g6 c hnorest, e_ref, if_pos rfl]
        · refine ⟨fun hcon => ?_, fun c2 hc2 => ?_⟩
          · have hnone1 : st1.child n i = none := by
              rw [e_childn]
              exact hcon
            have hii0 : i ≠ i0 := by
              intro h
              rw [h] at hi2
              exact hi0 hi2
            rw [(g4 i hi2).1 hnone1, e_child,
              if_neg (by intro hcon2; exact hii0 hcon2.2)]
          · have hst1c : st1.child n i = some c2 := by
              rw [e_childn]
              exact hc2
            have hcc : c2 ≠ c := by
              intro hcon
              rw [hcon] at hc2
              have := hinj i i0 c (List.mem_cons_of_mem _ hi2) (by simp) hc2 hc0
              rw [this] at hi2
              exact hi0 hi2
            constructor
            · exact ((g4 i hi2).2 c2 hst1c).1
            · rw [((g4 i hi2).2 c2 hst1c).2, e_ref, if_neg hcc]
      · intro i hi
        have hii0 : i ≠ i0 := by
          intro h
          exact hi (by rw [h]; simp)
        have hirest : i ∉ rest := fun hm => hi (List.mem_cons_of_mem _ hm)
        rw [g5 i hirest, e_child, if_neg (by intro hcon; exact hii0 hcon.2)]
      · intro m hm
        have hm1 : ∀ i, i ∈ rest → st1.child n i ≠ some m := by
          intro i hi hcon
          rw [e_childn] at hcon
          exact hm i (List.mem_cons_of_mem _ hi) hcon
        rw [g6 m hm1, e_ref, if_neg (by
          intro hcon
          exact hm i0 (by simp) (by rw [hc0, hcon]))]

/-- Claim C1: getWritableNode(height) returns the node itself (with no state
change) when its refcount is 1.  Otherwise it returns a freshly allocated
node, decrements the old node's refcount by exactly one, deep-copies
leaf-level children via getReadableCopy (height 0) or shares interior-level
children while bumping each shared child's refcount (height > 0), and every
previously allocated node's children and every previously allocated leaf's
content - in particular everything a sibling snapshot still holding the old
node can observe - are unchanged. -/
theorem getWritableNode_spec (F : Nat) (s : TreeState) (n h : Nat)
    (hn : n < s.nextId)
    (hwf : ∀ m, s.nextId ≤ m → s.refCnt m = 0 ∧ (∀ i, s.child m i = none))
    (hch : ∀ i c, s.child n i = some c → c < s.nextId ∧ c ≠ n)
    (hinj : ∀ i j c, s.child n i = some c → s.child n j = some c → i = j) :
    (s.refCnt n = 1 → getWritableNode F s n h = (n, s))
    ∧ (s.refCnt n ≠ 1 →
        (getWritableNode F s n h).1 = s.nextId
        ∧ (getWritableNode F s n h).1 ≠ n
        ∧ (getWritableNode F s n h).2.refCnt n = s.refCnt n - 1
        ∧ (getWritableNode F s n h).2.refCnt (getWritableNode F s n h).1 = 1
        ∧ (∀ m, m < s.nextId → (getWritableNode F s n h).2.child m = s.child m)
        ∧ (∀ m, m < s.nextId → (getWritableNode F s n h).2.leafVal m = s.leafVal m)
        ∧ (h = 0 →
            (∀ i, i < F → s.child n i = none →
              (getWritableNode F s n h).2.child (getWritableNode F s n h).1 i = none)
            ∧ (∀ i c, i < F → s.child n i = some c →
                ∃ c2, (getWritableNode F s n h).2.child (getWritableNode F s n h).1 i = some c2
                  ∧ s.nextId ≤ c2
                  ∧ (getWritableNode F s n h).2.leafVal c2 = s.leafVal c)
            ∧ (∀ m, m < s.nextId → m ≠ n →
                (getWritableNode F s n h).2.refCnt m = s.refCnt m))
        ∧ (h ≠ 0 →
            (∀ i, i < F →
              (getWritableNode F s n h).2.child (getWritableNode F s n h).1 i = s.child n i)
            ∧ (∀ i c, i < F → s.child n i = some c →
                (getWritableNode F s n h).2.refCnt c = s.refCnt c + 1)
            ∧ (∀ m, m < s.nextId → m ≠ n → (∀ i, i < F → s.child n i ≠ some m) →
                (getWritableNode F s n h).2.refCnt m = s.refCnt m))) := by
  constructor
  · intro h1
    rw [getWritableNode, if_pos h1]
  · intro h1
    rw [getWritableNode, if_neg h1]
    simp only
    have e_anext : (allocNode s).2.nextId = s.nextId + 1 := rfl
    have e_achild : ∀ m j, (allocNode s).2.child m j = s.child m j := fun m j => rfl
    have e_aleaf : ∀ m, (allocNode s).2.leafVal m = s.leafVal m := fun m => rfl
    have e_aref : ∀ m, (allocNode s).2.refCnt m =
        if m = s.nextId then 1 else s.refCnt m := fun m => rfl
    have e_afst : (allocNode s).1 = s.nextId := rfl
    have hnwchild : ∀ i, s.child s.nextId i = none := (hwf s.nextId (le_refl _)).2
    by_cases hh : h = 0
    · rw [if_pos hh]
      obtain ⟨g1, g2, g3, g4, g5, g6⟩ :=
        copyLeafFold n (allocNode s).1 (List.range F) (List.nodup_range F) (allocNode s).2
          (by rw [e_anext]; omega)
          (by rw [e_anext, e_afst]; omega)
          (by rw [e_afst]; omega)
          (by
            intro i c hc
            rw [e_achild] at hc
            have := (hch i c hc).1
            rw [e_anext]
            omega)
      refine ⟨rfl, by rw [e_afst]; omega, ?_, ?_, ?_, ?_, ?_, fun hcon => absurd hh hcon⟩
      · rw [if_pos trivial, g4 n (by rw [e_anext]; omega), e_aref, if_neg (by omega)]
      · rw [if_neg (by rw [e_afst]; omega),
          g4 (allocNode s).1 (by rw [e_anext, e_afst]; omega), e_aref, e_afst, if_pos rfl]
      · intro m hm
        rw [g2 m (by rw [e_anext]; omega) (by rw [e_afst]; omega)]
        funext j
        rw [e_achild]
      · intro m hm
        rw [g3 m (by rw [e_anext]; omega), e_aleaf]
      · intro _
        refine ⟨?_, ?_, ?_⟩
        · intro i hiF hcnone
          have := (g5 i (List.mem_range.mpr hiF)).1 (by rw [e_achild]; exact hcnone)
          rw [this, e_achild, e_afst]
          exact hnwchild i
        · intro i c hiF hcsome
          obtain ⟨c2, hc2, hc2le, hc2leaf⟩ :=
            (g5 i (List.mem_range.mpr hiF)).2 c (by rw [e_achild]; exact hcsome)
          refine ⟨c2, hc2, by rw [e_anext] at hc2le; omega, ?_⟩
          rw [hc2leaf, e_aleaf]
        · intro m hm hmn
          rw [if_neg hmn, g4 m (by rw [e_anext]; omega), e_aref, if_neg (by omega)]
    · rw [if_neg hh]
      obtain ⟨g1, g2, g3, g4, g5, g6⟩ :=
        shareChildFold n (allocNode s).1 (List.range F) (List.nodup_range F) (allocNode s).2
          (by rw [e_afst]; omega)
          (by
            intro i c hc
            rw [e_achild] at hc
            obtain ⟨hlt, hne2⟩ := hch i c hc
            rw [e_afst]
            constructor
            · exact hne2
            · omega)
          (by
            intro i j c _ _ h1c h2c
            rw [e_achild] at h1c h2c
            exact hinj i j c h1c h2c)
      refine ⟨rfl, by rw [e_afst]; omega, ?_, ?_, ?_, ?_, fun hcon => absurd hcon hh, ?_⟩
      · rw [if_pos trivial, g6 n (by
          intro i _ hcon
          rw [e_achild] at hcon
          exact (hch i n hcon).2 rfl), e_aref, if_neg (by omega)]
      · rw [if_neg (by rw [e_afst]; omega), g6 (allocNode s).1 (by
          intro i _ hcon
          rw [e_achild] at hcon
          rw [e_afst] at hcon
          have := (hch i s.nextId hcon).1
          omega), e_aref, e_afst, if_pos rfl]
      · intro m hm
        rw [g2 m (by rw [e_afst]; omega)]
        funext j
        rw [e_achild]
      · intro m _
        rw [g3 m, e_aleaf]
      · intro _
        refine ⟨?_, ?_, ?_⟩
        · intro i hiF
          rcases hc : s.child n i with _ | c
          · rw [(g4 i (List.mem_range.mpr hiF)).1 (by rw [e_achild]; exact hc), e_achild,
              e_afst]
            exact hnwchild i
          · exact ((g4 i (List.mem_range.mpr hiF)).2 c (by rw [e_achild]; exact hc)).1
        · intro i c hiF hcsome
          have hcn : c ≠ n := (hch i c hcsome).2
          have := ((g4 i (List.mem_range.mpr hiF)).2 c (by rw [e_achild]; exact hcsome)).2
          rw [if_neg hcn, this, e_aref, if_neg (by
            have := (hch i c hcsome).1
            omega)]
        · intro m hm hmn hnochild
          rw [if_neg hmn, g6 m (by
            intro i hi hcon
            rw [e_achild] at hcon
            exact hnochild i (List.mem_range.mp hi) hcon), e_aref, if_neg (by omega)]

/-- A concrete shared tree: node 0 (refcount 2, held by two snapshots) with
leaf children 1 and 2 holding contents 10 and 20. -/
def exTreeState : TreeState :=
  { refCnt := fun m => if m = 0 then 2 else if m = 1 then 1 else if m = 2 then 1 else 0
    child := fun m i =>
      if m = 0 ∧ i = 0 then some 1 else if m = 0 ∧ i = 1 then some 2 else none
    leafVal := fun m => if m = 1 then 10 else if m = 2 then 20 else 0
    nextId := 3 }

theorem getWritableNode_spec_witness :
    exTreeState.refCnt 0 ≠ 1 ∧
    (getWritableNode 2 exTreeState 0 0).1 = 3 ∧
    (getWritableNode 2 exTreeState 0 0).2.refCnt 0 = 1 ∧
    (∀ m, m < 3 → (getWritableNode 2 exTreeState 0 0).2.leafVal m = exTreeState.leafVal m) := by
  have hwf : ∀ m, exTreeState.nextId ≤ m →
      exTreeState.refCnt m = 0 ∧ (∀ i, exTreeState.child m i = none) := by
    intro m hm
    have hm3 : 3 ≤ m := hm
    constructor
    · simp only [exTreeState]
      rw [if_neg (by omega), if_neg (by omega), if_neg (by omega)]
    · intro i
      simp only [exTreeState]
      rw [if_neg (by omega), if_neg (by omega)]
  have hch : ∀ i c, exTreeState.child 0 i = some c → c < exTreeState.nextId ∧ c ≠ 0 := by
    intro i c hc
    have hnext : exTreeState.nextId = 3 := rfl
    simp only [exTreeState] at hc
    split at hc
    · simp only [Option.some.injEq] at hc
      exact ⟨by omega, by omega⟩
    · split at hc
      · simp only [Option.some.injEq] at hc
        exact ⟨by omega, by omega⟩
      · simp at hc
  have hinj : ∀ i j c, exTreeState.child 0 i = some c → exTreeState.child 0 j = some c →
      i = j := by
    intro i j c h1 h2
    simp only [exTreeState] at h1 h2
    split at h1
    · split at h2
      · omega
      · split at h2
        · simp only [Option.some.injEq] at h1 h2
          omega
        · simp at h2
    · split at h1
      · split at h2
        · simp only [Option.some.injEq] at h1 h2
          omega
        · split at h2
          · omega
          · simp at h2
      · simp at h1
  have T := getWritableNode_spec 2 exTreeState 0 0 (by decide) hwf hch hinj
  have hne : exTreeState.refCnt 0 ≠ 1 := by decide
  exact ⟨hne, (T.2 hne).1, (T.2 hne).2.2.1, fun m hm => (T.2 hne).2.2.2.2.2.1 m hm⟩

/-! ## Local store snapshots, executeWriteInst and executeCopyInst

The block-local snapshot (LocalStoreMap) is modelled at content level: the
heap radix tree (modelled node-by-node above) is abstracted to its
index-to-store contents, each stack frame's DenseMap to an association
list, and a LocStore to an abstract content.  Write targets (ShadowValue)
are heap allocations, frame-local allocas, or the ConstantPointerNull
constant.  The three store-mutating collaborators of executeWriteInst
(getWritableStoreFor + replaceRangeWithPB on a certain pointer, the
whole-object clobber for an unknown-offset candidate, and the
read-modify-write merge for a maybe-pointer), as well as executeCopyInst's
readValRangeMulti + replaceRangeWithPBs, are passed in as `WriteOps`: the
claims proved here hold for every instantiation of those operations. -/

structure LocStoreV where
  val : Nat
deriving Repr, DecidableEq

inductive WSV where
  | heapV (idx : Nat)
  | stackV (frame : Nat) (key : Nat)
  | nullV
deriving Repr, DecidableEq

/-- val_is<ConstantPointerNull>(V). -/
def isNullPtrV : WSV → Bool
  | .nullV => true
  | _ => false

structure LocalStoreMap where
  heap : List (Nat × LocStoreV)
  frames : List (List (Nat × LocStoreV))
  allOthersClobbered : Bool
  refCount : Nat
deriving Repr

def lookupA (l : List (Nat × LocStoreV)) (k : Nat) : Option LocStoreV :=
  (l.find? (fun kv => kv.1 = k)).map (fun kv => kv.2)

/-- LocalStoreMap::empty(): empty heap (tree height 0) and empty frames. -/
def LocalStoreMap.emptyContents (m : LocalStoreMap) : Bool :=
  m.heap.isEmpty && m.frames.all (fun f => f.isEmpty)

/-- LocalStoreMap::clear(): clear the heap tree and empty each frame. -/
def LocalStoreMap.clearContents (m : LocalStoreMap) : LocalStoreMap :=
  { m with heap := [], frames := m.frames.map (fun _ => []) }

/-- LocalStoreMap::getEmptyMap(): reuse the map if already empty; clear it in
place if unshared; otherwise drop a reference and build a fresh blank map
with the same number of frames. -/
def LocalStoreMap.getEmptyMap (m : LocalStoreMap) : LocalStoreMap :=
  if m.emptyContents then m
  else if m.refCount = 1 then m.clearContents
  else
    { heap := [], frames := m.frames.map (fun _ => []),
      allOthersClobbered := false, refCount := 1 }

/-- ShadowBB::getReadableStoreFor(V): frame-local allocas look in their
frame's map, heap allocations in the tree; a constant has heap key -1 and
no store. -/
def getReadableStoreForM (m : LocalStoreMap) (v : WSV) : Option LocStoreV :=
  match v with
  | .heapV i => lookupA m.heap i
  | .stackV f k => lookupA (m.frames.getD f []) k
  | .nullV => none

inductive ReadStart where
  | overdefR
  | fromStore (s : LocStoreV)
deriving Repr, DecidableEq

/-- The head of readValRange (source lines 1293-1302): start from the
block-local store if present; otherwise the answer is immediately
overdefined when allOthersClobbered is set, else the base store. -/
def readValRangeStart (base : WSV → LocStoreV) (m : LocalStoreMap) (v : WSV) : ReadStart :=
  match getReadableStoreForM m v with
  | some s => .fromStore s
  | none => if m.allOthersClobbered then .overdefR else .fromStore (base v)

structure WIVal where
  V : WSV
  Offset : Int
deriving Repr, DecidableEq

structure WIVS where
  Overdef : Bool
  Values : List WIVal
deriving Repr, DecidableEq

/-- ImprovedValSetSingle::isInitialised(): something has been set. -/
def WIVS.isInitialised (ivs : WIVS) : Bool :=
  ivs.Overdef || !ivs.Values.isEmpty

def WIVS.getOverdef : WIVS := ⟨true, []⟩

def ULONG_MAX : Nat := 18446744073709551615

/-- The store-mutating collaborators of write/copy execution, kept abstract:
the claims below hold for every instantiation. -/
structure WriteOps where
  writeCertain : LocalStoreMap → WSV → Int → Nat → WIVS → LocalStoreMap
  clobberOne : LocalStoreMap → WSV → LocalStoreMap
  mergeOne : LocalStoreMap → WSV → Int → Nat → WIVS → LocalStoreMap
  copyRange : LocalStoreMap → WSV → Int → WSV → Int → Nat → LocalStoreMap

/-- llvm::executeWriteInst(PtrSet, ValPB, PtrSize, StoreBB): an overdefined
pointer collapses the local snapshot to an empty clobbered-everything map; a
single certain pointer overwrites its location (silently skipping the null
pointer); otherwise each candidate is conservatively updated (null
candidates skipped, unknown-offset candidates clobbered wholly, known-offset
candidates merged read-modify-write). -/
def executeWriteInst (ops : WriteOps) (PtrSet ValPB : WIVS) (PtrSize : Nat)
    (st : LocalStoreMap) : LocalStoreMap :=
  let ValPB2 := if ¬ValPB.isInitialised then WIVS.getOverdef else ValPB
  if PtrSet.Overdef then
    let m := st.getEmptyMap
    { m with allOthersClobbered := true }
  else if PtrSet.Values.length = 1 ∧ (PtrSet.Values.headD ⟨.nullV, 0⟩).Offset ≠ LLONG_MAX then
    if isNullPtrV (PtrSet.Values.headD ⟨.nullV, 0⟩).V then st
    else
      ops.writeCertain st (PtrSet.Values.headD ⟨.nullV, 0⟩).V
        (PtrSet.Values.headD ⟨.nullV, 0⟩).Offset PtrSize ValPB2
  else
    PtrSet.Values.foldl
      (fun st2 iv =>
        if isNullPtrV iv.V then st2
        else if iv.Offset = LLONG_MAX then ops.clobberOne st2 iv.V
        else ops.mergeOne st2 iv.V iv.Offset PtrSize ValPB2) st

/-- llvm::executeCopyInst(PtrSet, SrcPtrSet, Size, BB): only a known-size
copy between two single pointers is supported (anything else degrades to an
overdefining write); a null source or destination returns without touching
any store; otherwise the source range-list is read, relabelled and written
over the destination range. -/
def executeCopyInst (ops : WriteOps) (PtrSet SrcPtrSet : WIVS) (Size : Nat)
    (st : LocalStoreMap) : LocalStoreMap :=
  if Size = ULONG_MAX ∨ PtrSet.Overdef ∨ PtrSet.Values.length ≠ 1 ∨
      SrcPtrSet.Overdef ∨ SrcPtrSet.Values.length ≠ 1 then
    executeWriteInst ops PtrSet WIVS.getOverdef Size st
  else if isNullPtrV (SrcPtrSet.Values.headD ⟨.nullV, 0⟩).V then st
  else if isNullPtrV (PtrSet.Values.headD ⟨.nullV, 0⟩).V then st
  else
    ops.copyRange st (PtrSet.Values.headD ⟨.nullV, 0⟩).V
      (PtrSet.Values.headD ⟨.nullV, 0⟩).Offset
      (SrcPtrSet.Values.headD ⟨.nullV, 0⟩).V
      (SrcPtrSet.Values.headD ⟨.nullV, 0⟩).Offset Size

theorem getEmptyMap_contents (m : LocalStoreMap) :
    (m.getEmptyMap).heap = [] ∧ (∀ f ∈ (m.getEmptyMap).frames, f = []) := by
  rw [LocalStoreMap.getEmptyMap]
  by_cases h1 : m.emptyContents = true
  · rw [if_pos h1]
    rw [LocalStoreMap.emptyContents] at h1
    simp only [Bool.and_eq_true, List.all_eq_true] at h1
    constructor
    · exact List.isEmpty_iff.mp h1.1
    · intro f hf
      exact List.isEmpty_iff.mp (h1.2 f hf)
  · rw [if_neg h1]
    by_cases h2 : m.refCount = 1
    · rw [if_pos h2]
      refine ⟨rfl, ?_⟩
      intro f hf
      simp only [LocalStoreMap.clearContents, List.mem_map] at hf
      obtain ⟨_, _, hf2⟩ := hf
      exact hf2.symm
    · rw [if_neg h2]
      refine ⟨rfl, ?_⟩
      intro f hf
      simp only [List.mem_map] at hf
      obtain ⟨_, _, hf2⟩ := hf
      exact hf2.symm

/-- Claim C2: a write through an overdefined pointer set collapses the whole
local snapshot: the local map becomes an empty map whose allOthersClobbered
flag is set, and any subsequent read of any object starts overdefined
instead of falling through to the base store. -/
theorem executeWriteInst_overdef_clobbers_all
    (ops : WriteOps) (PtrSet ValPB : WIVS) (PtrSize : Nat) (st : LocalStoreMap)
    (h : PtrSet.Overdef = true) :
    (executeWriteInst ops PtrSet ValPB PtrSize st).heap = []
    ∧ (∀ f ∈ (executeWriteInst ops PtrSet ValPB PtrSize st).frames, f = [])
    ∧ (executeWriteInst ops PtrSet ValPB PtrSize st).allOthersClobbered = true
    ∧ (∀ (base : WSV → LocStoreV) (v : WSV),
        readValRangeStart base (executeWriteInst ops PtrSet ValPB PtrSize st) v =
          .overdefR) := by
  have hunf : executeWriteInst ops PtrSet ValPB PtrSize st =
      { st.getEmptyMap with allOthersClobbered := true } := by
    rw [executeWriteInst, if_pos h]
  rw [hunf]
  obtain ⟨he1, he2⟩ := getEmptyMap_contents st
  refine ⟨he1, he2, rfl, ?_⟩
  intro base v
  rw [readValRangeStart]
  have hproj1 : ({ st.getEmptyMap with allOthersClobbered := true } :
      LocalStoreMap).heap = st.getEmptyMap.heap := rfl
  have hproj2 : ({ st.getEmptyMap with allOthersClobbered := true } :
      LocalStoreMap).frames = st.getEmptyMap.frames := rfl
  have hnone : getReadableStoreForM { st.getEmptyMap with allOthersClobbered := true } v =
      none := by
    cases v with
    | heapV i =>
      simp only [getReadableStoreForM, hproj1, he1]
      rfl
    | stackV f k =>
      simp only [getReadableStoreForM, hproj2]
      have hframe : st.getEmptyMap.frames.getD f [] = [] := by
        rcases hgd : st.getEmptyMap.frames[f]? with _ | fr
        · rw [List.getD_eq_getElem?_getD, hgd]
          rfl
        · rw [List.getD_eq_getElem?_getD, hgd]
          exact he2 fr (List.getElem?_mem hgd)
      rw [hframe]
      rfl
    | nullV => rfl
  rw [hnone]
  rfl

theorem writeFoldNullSkip (ops : WriteOps) (PtrSize : Nat) (ValPB2 : WIVS) :
    ∀ (l : List WIVal) (st : LocalStoreMap), (∀ iv ∈ l, isNullPtrV iv.V = true) →
      l.foldl
        (fun st2 iv =>
          if isNullPtrV iv.V then st2
          else if iv.Offset = LLONG_MAX then ops.clobberOne st2 iv.V
          else ops.mergeOne st2 iv.V iv.Offset PtrSize ValPB2) st = st := by
  intro l
  induction l with
  | nil => intro st _; rfl
  | cons iv rest ih =>
    intro st hall
    rw [List.foldl_cons, if_pos (hall iv (by simp))]
    exact ih st (fun iv2 h2 => hall iv2 (List.mem_cons_of_mem _ h2))

/-- Claim C10: writes through pointer sets whose candidates are all the
constant null pointer leave the snapshot entirely unchanged (the single
certain null pointer returns early; null candidates in the conservative
loop are skipped), and a supported copy (known size, single source and
destination candidates) whose source or destination candidate is null
returns without modifying any store. -/
theorem null_pointer_writes_and_copies_skipped :
    (∀ (ops : WriteOps) (PtrSet ValPB : WIVS) (PtrSize : Nat) (st : LocalStoreMap),
      PtrSet.Overdef = false →
      (∀ iv ∈ PtrSet.Values, isNullPtrV iv.V = true) →
      executeWriteInst ops PtrSet ValPB PtrSize st = st)
    ∧ (∀ (ops : WriteOps) (PtrSet SrcPtrSet : WIVS) (Size : Nat) (st : LocalStoreMap),
      Size ≠ ULONG_MAX → PtrSet.Overdef = false → SrcPtrSet.Overdef = false →
      PtrSet.Values.length = 1 → SrcPtrSet.Values.length = 1 →
      (isNullPtrV (SrcPtrSet.Values.headD ⟨.nullV, 0⟩).V = true ∨
        isNullPtrV (PtrSet.Values.headD ⟨.nullV, 0⟩).V = true) →
      executeCopyInst ops PtrSet SrcPtrSet Size st = st) := by
  constructor
  · intro ops PtrSet ValPB PtrSize st hov hall
    rw [executeWriteInst, if_neg (by rw [hov]; exact fun hcon => absurd hcon (by simp))]
    by_cases h2 : PtrSet.Values.length = 1 ∧
        (PtrSet.Values.headD ⟨.nullV, 0⟩).Offset ≠ LLONG_MAX
    · rw [if_pos h2]
      have hmem : PtrSet.Values.headD ⟨.nullV, 0⟩ ∈ PtrSet.Values := by
        rcases hv : PtrSet.Values with _ | ⟨iv, rest⟩
        · rw [hv] at h2
          simp at h2
        · simp
      rw [if_pos (hall _ hmem)]
    · rw [if_neg h2]
      exact writeFoldNullSkip ops PtrSize _ PtrSet.Values st hall
  · intro ops PtrSet SrcPtrSet Size st hsz hov hsov hlen hslen hnull
    rw [executeCopyInst, if_neg (by
      intro hcon
      rcases hcon with h | h | h | h | h
      · exact hsz h
      · rw [hov] at h
        exact absurd h (by simp)
      · exact h hlen
      · rw [hsov] at h
        exact absurd h (by simp)
      · exact h hslen)]
    rcases hnull with h | h
    · rw [if_pos h]
    · by_cases h2 : isNullPtrV (SrcPtrSet.Values.headD ⟨.nullV, 0⟩).V = true
      · rw [if_pos h2]
      · rw [if_neg h2, if_pos h]

/-- Concrete instances for both parts of the null-skip claim. -/
theorem null_pointer_writes_and_copies_skipped_witness :
    (∀ (ops : WriteOps) (st : LocalStoreMap),
      executeWriteInst ops ⟨false, [⟨.nullV, 0⟩]⟩ ⟨false, []⟩ 8 st = st)
    ∧ (∀ (ops : WriteOps) (st : LocalStoreMap),
      executeCopyInst ops ⟨false, [⟨.heapV 3, 0⟩]⟩ ⟨false, [⟨.nullV, 0⟩]⟩ 8 st = st) :=
  ⟨fun ops st =>
    null_pointer_writes_and_copies_skipped.1 ops ⟨false, [⟨.nullV, 0⟩]⟩ ⟨false, []⟩ 8 st rfl
      (by intro iv hiv; simp at hiv; rw [hiv]; rfl),
   fun ops st =>
    null_pointer_writes_and_copies_skipped.2 ops ⟨false, [⟨.heapV 3, 0⟩]⟩
      ⟨false, [⟨.nullV, 0⟩]⟩ 8 st (by decide) rfl rfl rfl rfl (Or.inl (by decide))⟩

/-- A trivial instantiation of the abstract store-mutating operations. -/
def exWriteOps : WriteOps :=
  { writeCertain := fun st _ _ _ _ => st
    clobberOne := fun st _ => st
    mergeOne := fun st _ _ _ _ => st
    copyRange := fun st _ _ _ _ _ => st }

/-- A non-empty shared snapshot: one heap object and one frame-local. -/
def exStoreMap : LocalStoreMap :=
  { heap := [(0, ⟨5⟩)], frames := [[(1, ⟨7⟩)]], allOthersClobbered := false, refCount := 2 }

theorem executeWriteInst_overdef_clobbers_all_witness :
    WIVS.getOverdef.Overdef = true ∧
    (executeWriteInst exWriteOps WIVS.getOverdef ⟨false, []⟩ 8 exStoreMap).heap = [] ∧
    (executeWriteInst exWriteOps WIVS.getOverdef ⟨false, []⟩ 8
      exStoreMap).allOthersClobbered = true ∧
    readValRangeStart (fun _ => ⟨0⟩)
      (executeWriteInst exWriteOps WIVS.getOverdef ⟨false, []⟩ 8 exStoreMap)
      (.heapV 0) = .overdefR :=
  ⟨rfl,
   (executeWriteInst_overdef_clobbers_all exWriteOps WIVS.getOverdef ⟨false, []⟩ 8
     exStoreMap rfl).1,
   (executeWriteInst_overdef_clobbers_all exWriteOps WIVS.getOverdef ⟨false, []⟩ 8
     exStoreMap rfl).2.2.1,
   (executeWriteInst_overdef_clobbers_all exWriteOps WIVS.getOverdef ⟨false, []⟩ 8
     exStoreMap rfl).2.2.2 (fun _ => ⟨0⟩) (.heapV 0)⟩

/-! ## Merging stack frames at a join point (MergeBlockVisitor::mergeFrames)

Stack frames (SharedStoreMap DenseMaps) are modelled as association lists of
(alloca key, store content).  The model is at content level: the source's
pointer-level handling - discarding pointer-identical incoming frames
(sort + unique and the all-identical early return), the CoW break of the
target frame, skipping the merge target itself in the loop, and skipping
merges between pointer-identical LocStores - only avoids redundant work on
identical contents and does not change the per-key content or presence
facts proved here.  The per-location value merge (mergeStores) is passed in
as `mergeVals`; the claims hold for every instantiation.  `clobber` is
toMap->allOthersClobbered, already set to the big-or over all incoming
snapshots by doMerge before mergeFrames runs. -/

abbrev FrameM := List (Nat × LocStoreV)

/-- One step of the allOthersClobbered pre-pass (source lines 3329-3357):
drop every location of the target frame that is missing from the incoming
frame (incremental big intersection). -/
def intersectOne (toF frF : FrameM) : FrameM :=
  toF.filter (fun kv => (lookupA frF kv.1).isSome)

/-- One step of the read-through pre-pass (source lines 3358-3374): seed
every location mentioned in the incoming frame but missing from the target
frame with a readable copy of its base-store value. -/
def seedOne (base : Nat → LocStoreV) (toF frF : FrameM) : FrameM :=
  frF.foldl
    (fun acc kv => if (lookupA acc kv.1).isSome then acc else acc ++ [(kv.1, base kv.1)])
    toF

/-- The pre-pass over every incoming frame. -/
def mergePhase1 (clobber : Bool) (base : Nat → LocStoreV) (toF : FrameM)
    (froms : List FrameM) : FrameM :=
  if clobber then froms.foldl intersectOne toF
  else froms.foldl (seedOne base) toF

/-- The value-merge pass (source lines 3382-3423): for each location now in
the target frame, merge in each incoming frame's store for it, taking the
base store where an incoming frame lacks the location. -/
def mergePhase2 (mergeVals : LocStoreV → LocStoreV → LocStoreV)
    (base : Nat → LocStoreV) (froms : List FrameM) (f : FrameM) : FrameM :=
  f.map (fun kv =>
    (kv.1, froms.foldl (fun s fr => mergeVals s ((lookupA fr kv.1).getD (base kv.1))) kv.2))

/-- MergeBlockVisitor::mergeFrames for one frame index. -/
def mergeFrames (clobber : Bool) (base : Nat → LocStoreV)
    (mergeVals : LocStoreV → LocStoreV → LocStoreV) (toF : FrameM)
    (froms : List FrameM) : FrameM :=
  mergePhase2 mergeVals base froms (mergePhase1 clobber base toF froms)

theorem lookupA_cons (kv : Nat × LocStoreV) (l : FrameM) (k : Nat) :
    lookupA (kv :: l) k = if kv.1 = k then some kv.2 else lookupA l k := by
  by_cases h : kv.1 = k
  · rw [if_pos h]
    simp [lookupA, List.find?_cons_of_pos, h]
  · rw [if_neg h]
    simp only [lookupA]
    rw [List.find?_cons_of_neg]
    simp [h]

theorem lookupA_append_single (l : FrameM) (k2 : Nat) (v : LocStoreV) (k : Nat) :
    lookupA (l ++ [(k2, v)]) k =
      if (lookupA l k).isSome then lookupA l k
      else if k2 = k then some v else none := by
  induction l with
  | nil =>
    simp only [List.nil_append]
    rw [lookupA_cons]
    by_cases h : k2 = k
    · simp [h, lookupA]
    · simp [h, lookupA]
  | cons kv rest ih =>
    rw [List.cons_append, lookupA_cons, lookupA_cons]
    by_cases h : kv.1 = k
    · rw [if_pos h, if_pos h, if_pos (by simp)]
    · rw [if_neg h, if_neg h, ih]

theorem lookupA_intersectOne (toF frF : FrameM) (k : Nat) :
    lookupA (intersectOne toF frF) k =
      if (lookupA frF k).isSome then lookupA toF k else none := by
  induction toF with
  | nil =>
    simp only [intersectOne, List.filter_nil]
    by_cases h : (lookupA frF k).isSome <;> simp [h, lookupA]
  | cons kv rest ih =>
    simp only [intersectOne, List.filter_cons]
    by_cases hkeep : (lookupA frF kv.1).isSome
    · rw [if_pos (by simpa using hkeep), lookupA_cons]
      by_cases hk : kv.1 = k
      · rw [if_pos hk, lookupA_cons, if_pos hk, if_pos (by rw [← hk]; exact hkeep)]
      · rw [if_neg hk]
        simp only [intersectOne] at ih
        rw [ih, lookupA_cons, if_neg hk]
    · rw [if_neg (by simpa using hkeep)]
      simp only [intersectOne] at ih
      rw [ih, lookupA_cons]
      by_cases hk : kv.1 = k
      · rw [if_pos hk]
        rw [hk] at hkeep
        rw [if_neg hkeep, if_neg hkeep]
      · rw [if_neg hk]

theorem lookupA_intersectFold (k : Nat) :
    ∀ (froms : List FrameM) (toF : FrameM),
      (lookupA (froms.foldl intersectOne toF) k).isSome = true ↔
        ((lookupA toF k).isSome = true ∧ ∀ fr ∈ froms, (lookupA fr k).isSome = true) := by
  intro froms
  induction froms with
  | nil =>
    intro toF
    simp
  | cons fr rest ih =>
    intro toF
    rw [List.foldl_cons, ih]
    rw [lookupA_intersectOne]
    by_cases h : (lookupA fr k).isSome = true
    · rw [if_pos h]
      constructor
      · rintro ⟨h1, h2⟩
        exact ⟨h1, fun fr2 hfr2 => by
          rcases List.mem_cons.mp hfr2 with he | hm
          · rw [he]
            exact h
          · exact h2 fr2 hm⟩
      · rintro ⟨h1, h2⟩
        exact ⟨h1, fun fr2 hfr2 => h2 fr2 (List.mem_cons_of_mem _ hfr2)⟩
    · rw [if_neg h]
      simp only [Option.isSome_none, Bool.false_eq_true, false_and, false_iff]
      intro hcon
      exact h (hcon.2 fr (by simp))

theorem lookupA_seedOne (base : Nat → LocStoreV) (k : Nat) :
    ∀ (frF toF : FrameM),
      lookupA (seedOne base toF frF) k =
        if (lookupA toF k).isSome then lookupA toF k
        else if (lookupA frF k).isSome then some (base k) else none := by
  intro frF
  induction frF with
  | nil =>
    intro toF
    simp only [seedOne, List.foldl_nil]
    by_cases h : (lookupA toF k).isSome
    · rw [if_pos h]
    · rw [if_neg h, if_neg (by simp [lookupA])]
      exact Option.not_isSome_iff_eq_none.mp h
  | cons kv rest ih =>
    intro toF
    simp only [seedOne, List.foldl_cons]
    by_cases hacc : (lookupA toF kv.1).isSome
    · rw [if_pos hacc]
      have ih2 := ih toF
      simp only [seedOne] at ih2
      rw [ih2, lookupA_cons]
      by_cases hk : kv.1 = k
      · rw [← hk] at *
        rw [if_pos hacc, if_pos hacc]
      · rw [if_neg hk]
    · rw [if_neg hacc]
      have ih2 := ih (toF ++ [(kv.1, base kv.1)])
      simp only [seedOne] at ih2
      rw [ih2, lookupA_append_single, lookupA_cons]
      by_cases hk : kv.1 = k
      · rw [← hk] at *
        rw [if_neg hacc, if_neg hacc, if_pos rfl, if_pos rfl]
        simp
      · rw [if_neg hk]
        by_cases htoF : (lookupA toF k).isSome
        · simp [htoF]
        · simp [htoF, hk]

theorem lookupA_seedFold (base : Nat → LocStoreV) (k : Nat) :
    ∀ (froms : List FrameM) (toF : FrameM),
      lookupA (froms.foldl (seedOne base) toF) k =
        if (lookupA toF k).isSome then lookupA toF k
        else if froms.any (fun fr => (lookupA fr k).isSome) then some (base k) else none := by
  intro froms
  induction froms with
  | nil =>
    intro toF
    simp only [List.foldl_nil, List.any_nil, Bool.false_eq_true, if_false]
    by_cases h : (lookupA toF k).isSome
    · rw [if_pos h]
    · rw [if_neg h]
      simpa using h
  | cons fr rest ih =>
    intro toF
    rw [List.foldl_cons, ih, lookupA_seedOne, List.any_cons]
    by_cases htoF : (lookupA toF k).isSome
    · simp [htoF]
    · by_cases hfr : (lookupA fr k).isSome
      · simp [htoF, hfr]
      · simp [htoF, hfr]

theorem lookupA_mergePhase2 (mergeVals : LocStoreV → LocStoreV → LocStoreV)
    (base : Nat → LocStoreV) (froms : List FrameM) (k : Nat) :
    ∀ f : FrameM,
      lookupA (mergePhase2 mergeVals base froms f) k =
        (lookupA f k).map
          (fun v => froms.foldl (fun s fr => mergeVals s ((lookupA fr k).getD (base k))) v) := by
  intro f
  induction f with
  | nil => rfl
  | cons kv rest ih =>
    simp only [mergePhase2, List.map_cons]
    rw [lookupA_cons, lookupA_cons]
    by_cases hk : kv.1 = k
    · simp [hk]
    · rw [if_neg hk, if_neg hk]
      simp only [mergePhase2] at ih
      exact ih

theorem isSome_map_opt {α β : Type} (f : α → β) (o : Option α) :
    (o.map f).isSome = o.isSome := by
  cases o <;> rfl

/-- Claim C4: For every stack-frame merge over a set of incoming snapshots
(the merge target frame `toF` plus the other incoming frames `froms`):
(1) if any incoming snapshot had the clobber-all flag set (so
toMap->allOthersClobbered is true when mergeFrames runs), the merged frame
contains exactly the locations present in every incoming frame — the
intersection, removing locations missing from any source; (2) otherwise the
merged frame contains the union of the locations, and (3) a location absent
from the target frame but present in some incoming frame is seeded into the
pre-pass result with a copy of its base-store value, (4) before value
merging (mergeFrames is literally the value-merge pass applied to the
pre-pass result), so a present/absent asymmetry never loses information. -/
theorem mergeFrames_key_sets (base : Nat → LocStoreV)
    (mergeVals : LocStoreV → LocStoreV → LocStoreV) (toF : FrameM)
    (froms : List FrameM) :
    (∀ k : Nat, (lookupA (mergeFrames true base mergeVals toF froms) k).isSome = true ↔
      ((lookupA toF k).isSome = true ∧ ∀ fr ∈ froms, (lookupA fr k).isSome = true)) ∧
    (∀ k : Nat, (lookupA (mergeFrames false base mergeVals toF froms) k).isSome = true ↔
      ((lookupA toF k).isSome = true ∨ ∃ fr ∈ froms, (lookupA fr k).isSome = true)) ∧
    (∀ k : Nat, lookupA toF k = none →
      (∃ fr ∈ froms, (lookupA fr k).isSome = true) →
      lookupA (mergePhase1 false base toF froms) k = some (base k)) ∧
    mergeFrames false base mergeVals toF froms =
      mergePhase2 mergeVals base froms (mergePhase1 false base toF froms) := by
  refine ⟨?_, ?_, ?_, rfl⟩
  · intro k
    rw [mergeFrames, lookupA_mergePhase2, mergePhase1, if_pos rfl, isSome_map_opt]
    exact lookupA_intersectFold k froms toF
  · intro k
    rw [mergeFrames, lookupA_mergePhase2, mergePhase1,
      if_neg (by simp), isSome_map_opt, lookupA_seedFold]
    by_cases htoF : (lookupA toF k).isSome
    · rw [if_pos htoF]
      simp [htoF]
    · rw [if_neg htoF]
      by_cases hany : froms.any (fun fr => (lookupA fr k).isSome) = true
      · rw [if_pos hany]
        simp only [Option.isSome_some, true_iff]
        exact Or.inr (List.any_eq_true.mp hany)
      · rw [if_neg hany]
        simp only [Option.isSome_none, Bool.false_eq_true, false_iff]
        rintro (hc | ⟨fr, hfr, hsome⟩)
        · exact htoF hc
        · exact hany (List.any_eq_true.mpr ⟨fr, hfr, hsome⟩)
  · intro k hnone hex
    rw [mergePhase1, if_neg (by simp), lookupA_seedFold, hnone]
    simp only [Option.isSome_none, Bool.false_eq_true, if_false]
    rw [if_pos (List.any_eq_true.mpr hex)]

/-- Concrete check: target frame (0 ↦ 10) merged with one
incoming frame (1 ↦ 20) under base store 1 ↦ 99, without clobbering:
location 1 is absent from the target and present in the incoming frame, and
the pre-pass seeds it with the base-store value 99. -/
theorem mergeFrames_key_sets_witness :
    lookupA ([((0 : Nat), (⟨10⟩ : LocStoreV))] : FrameM) 1 = none ∧
    (∃ fr ∈ ([[((1 : Nat), (⟨20⟩ : LocStoreV))]] : List FrameM),
      (lookupA fr 1).isSome = true) ∧
    lookupA (mergePhase1 false (fun _ => (⟨99⟩ : LocStoreV))
      [((0 : Nat), (⟨10⟩ : LocStoreV))] [[((1 : Nat), (⟨20⟩ : LocStoreV))]]) 1 =
      some (⟨99⟩ : LocStoreV) := by
  refine ⟨rfl, ⟨[((1 : Nat), (⟨20⟩ : LocStoreV))], by simp, rfl⟩, ?_⟩
  exact (mergeFrames_key_sets (fun _ => (⟨99⟩ : LocStoreV)) (fun s _ => s)
    [((0 : Nat), (⟨10⟩ : LocStoreV))] [[((1 : Nat), (⟨20⟩ : LocStoreV))]]).2.2.1 1 rfl
    ⟨[((1 : Nat), (⟨20⟩ : LocStoreV))], by simp, rfl⟩

end LF
